import Mathlib

set_option maxRecDepth 4000

/-!
Verification development for the chordpro2html pipeline: a shallow embedding
of the parser (src/lib/parser.ts), the transposer (src/lib/transpose.ts), the
renderer (src/lib/renderer.ts) and the composition entry point
(src/lib/index.ts), together with theorems about them.

Strings are modelled as Lean `String`/`List Char`; JavaScript numbers used as
semitone counts are modelled as `Int`; optional fields are `Option`; the
JavaScript truthiness tests the source performs on strings ("" is falsy) are
modelled as explicit emptiness tests.
-/

namespace Chordpro

/-! ## Character and string utilities -/

/-- Whitespace recognised by the JavaScript `trim` family for the ASCII range
used by the source (space, tab, newline, carriage return, vertical tab,
form feed). -/
def isSpaceChar (c : Char) : Bool :=
  c == ' ' || c == '\t' || c == '\n' || c == '\r' || c == '\x0b' || c == '\x0c'

/-- Model of JavaScript `String.prototype.trimEnd`. -/
def trimEndL (cs : List Char) : List Char :=
  (cs.reverse.dropWhile isSpaceChar).reverse

/-- Model of JavaScript `String.prototype.trimStart`. -/
def trimStartL (cs : List Char) : List Char :=
  cs.dropWhile isSpaceChar

/-- Model of JavaScript `String.prototype.trim`. -/
def trimL (cs : List Char) : List Char :=
  trimEndL (trimStartL cs)

/-- Index of the first occurrence of `t`, or the length of the list when `t`
does not occur (JavaScript `indexOf` returns -1 in that case; the callers
below compare against the length instead). -/
def idxOfChar (t : Char) : List Char → Nat
  | [] => 0
  | c :: cs => if c == t then 0 else idxOfChar t cs + 1

/-- Split on `/\r?\n/` exactly as `String.prototype.split` does: a line break
is either a bare newline or a carriage return immediately followed by a
newline. -/
def splitLinesAux : List Char → List Char → List (List Char)
  | [], acc => [acc.reverse]
  | '\r' :: '\n' :: cs, acc => acc.reverse :: splitLinesAux cs []
  | '\n' :: cs, acc => acc.reverse :: splitLinesAux cs []
  | c :: cs, acc => splitLinesAux cs (c :: acc)

/-- Split an input into physical lines on `/\r?\n/`. -/
def splitLines (cs : List Char) : List (List Char) :=
  splitLinesAux cs []

/-! ## Data model (src/lib/types.ts)

`Section.lines`, and the node list of a `Song`, are modelled by the mutual
inductive `AstNodes` (a copy of `List AstNode`) so that all recursive
functions over the tree are structural and compute inside the kernel. -/

/-- A chord annotation attached to a lyric position. -/
structure Chord where
  chord : String
  lyric : String
deriving DecidableEq

mutual
/-- An AST node: lyric line, directive, section or empty line. The source's
`Section` variant (name, optional label, child nodes) is the `sect`
constructor. -/
inductive AstNode where
  | line (chords : List Chord)
  | directive (name value : String)
  | sect (name : String) (label : Option String) (lines : AstNodes)
  | empty
deriving DecidableEq
/-- A sequence of AST nodes (`AstNode[]` in the source). -/
inductive AstNodes where
  | nil
  | cons (head : AstNode) (tail : AstNodes)
deriving DecidableEq
end

/-- Append two node sequences. -/
def AstNodes.append : AstNodes → AstNodes → AstNodes
  | .nil, b => b
  | .cons c cs, b => .cons c (cs.append b)

instance : Append AstNodes := ⟨AstNodes.append⟩

/-- `Array.prototype.push`: append a single node at the end. -/
def AstNodes.push (ns : AstNodes) (n : AstNode) : AstNodes :=
  ns ++ AstNodes.cons n .nil

/-- Build a node sequence from a Lean list (used to state theorems). -/
def AstNodes.ofList : List AstNode → AstNodes
  | [] => .nil
  | n :: ns => .cons n (AstNodes.ofList ns)

/-- Top-level AST representing a full ChordPro song. -/
structure Song where
  nodes : AstNodes
deriving DecidableEq

/-! ## Parser (src/lib/parser.ts) -/

/-- One pass of the global regex `/\[([^\]]*)\]/g` scan of `parseLyricLine`:
returns the text before the first chord bracket together with the list of
(bracket content, following text) pairs.  A `[` with no later `]` cannot
start a match, and in that case no later position can match either, so the
whole remainder is plain text.  Fuel is structural; the callers pass one more
than the length of the line, which the scan can never exhaust. -/
def goPairs (fuel : Nat) (cs : List Char) : List Char × List (List Char × List Char) :=
  match fuel, cs with
  | 0, rest => (rest, [])
  | _ + 1, [] => ([], [])
  | f + 1, c :: rest =>
    if c == '[' then
      let j := idxOfChar ']' rest
      if j < rest.length then
        let r := goPairs f (rest.drop (j + 1))
        ([], (rest.take j, r.1) :: r.2)
      else
        (c :: rest, [])
    else
      let r := goPairs f rest
      (c :: r.1, r.2)

/-- The chord pairs of one lyric line, mirroring `parseLyricLine`: leading
text with no chord becomes a pair with empty chord; each bracket span opens a
pair whose lyric is the following text; a line with no bracket match is a
single pair with empty chord. -/
def lyricPairs (line : List Char) : List Chord :=
  let r := goPairs (line.length + 1) line
  match r.2 with
  | [] => [⟨"", r.1.asString⟩]
  | _ :: _ =>
    (if r.1.isEmpty then [] else [(⟨"", r.1.asString⟩ : Chord)]) ++
      r.2.map fun m => (⟨m.1.asString, m.2.asString⟩ : Chord)

/-- `parseLyricLine`: parse a lyric line containing optional inline chords. -/
def parseLyricLine (line : List Char) : AstNode :=
  .line (lyricPairs line)

/-- `DIRECTIVE_ALIASES`: canonicalise a short directive name. -/
def aliasCanon (n : String) : String :=
  if n == "t" then "title"
  else if n == "st" then "subtitle"
  else if n == "c" then "comment"
  else if n == "ci" then "comment_italic"
  else if n == "cb" then "comment_box"
  else if n == "soc" then "start_of_chorus"
  else if n == "eoc" then "end_of_chorus"
  else if n == "sov" then "start_of_verse"
  else if n == "eov" then "end_of_verse"
  else if n == "sot" then "start_of_tab"
  else if n == "eot" then "end_of_tab"
  else if n == "sob" then "start_of_bridge"
  else if n == "eob" then "end_of_bridge"
  else if n == "sog" then "start_of_grid"
  else if n == "eog" then "end_of_grid"
  else n

/-- `SECTION_START`: section-start directives mapped to their section name. -/
def SECTION_START (n : String) : Option String :=
  if n == "start_of_chorus" then some "chorus"
  else if n == "start_of_verse" then some "verse"
  else if n == "start_of_tab" then some "tab"
  else if n == "start_of_bridge" then some "bridge"
  else if n == "start_of_grid" then some "grid"
  else none

/-- `SECTION_END`: section-end directives mapped to their section name. -/
def SECTION_END (n : String) : Option String :=
  if n == "end_of_chorus" then some "chorus"
  else if n == "end_of_verse" then some "verse"
  else if n == "end_of_tab" then some "tab"
  else if n == "end_of_bridge" then some "bridge"
  else if n == "end_of_grid" then some "grid"
  else none

/-- `parseDirective`: split directive content on the first `:`; trim, then
lowercase, then alias-expand the name; trim the value. -/
def parseDirective (content : List Char) : String × String :=
  let ci := idxOfChar ':' content
  if ci < content.length then
    (aliasCanon ((trimL (content.take ci)).map Char.toLower).asString,
     (trimL (content.drop (ci + 1))).asString)
  else
    (aliasCanon ((trimL content).map Char.toLower).asString, "")

/-- The regex `/^\{([^}]+)\}$/` applied to a trimmed line: an opening brace,
at least one character none of which is a closing brace, then a closing
brace at the very end. -/
def directiveContent (t : List Char) : Option (List Char) :=
  match t with
  | [] => none
  | c :: rest =>
    if c == '\x7b' && rest.getLast? == some '\x7d' &&
        !rest.dropLast.isEmpty && !rest.dropLast.contains '\x7d' then
      some rest.dropLast
    else none

/-- The classification the parser's loop body performs on one (already
trailing-trimmed) line, in source order: comment skip, blank line, directive
line, lyric line. -/
inductive LineKind where
  | comment
  | blank
  | directiveLine (name value : String)
  | lyricLine (content : List Char)
deriving DecidableEq

/-- Classify one trailing-trimmed line exactly as the parser's loop does. -/
def classify (line : List Char) : LineKind :=
  if (trimStartL line).head? == some '#' then .comment
  else if (trimL line).isEmpty then .blank
  else
    match directiveContent (trimL line) with
    | some inner =>
      let p := parseDirective inner
      .directiveLine p.1 p.2
    | none => .lyricLine line

/-- The section currently being built (`currentSection` in the source). -/
structure PSection where
  name : String
  label : Option String
  lines : AstNodes
deriving DecidableEq

/-- Close a pending section into a `Section` node. -/
def mkSection (ps : PSection) : AstNode :=
  .sect ps.name ps.label ps.lines

/-- The parser's loop state: completed top-level nodes and the currently
open section, if any. -/
structure PState where
  nodes : AstNodes
  cur : Option PSection
deriving DecidableEq

/-- Route a produced node into the open section if there is one, else to the
top level. -/
def pushNode (st : PState) (n : AstNode) : PState :=
  match st.cur with
  | some ps => { st with cur := some { ps with lines := ps.lines.push n } }
  | none => { st with nodes := st.nodes.push n }

/-- The effect of one classified line on the parser state: section starts
replace the current section, section ends close it (or are dropped when no
section is open), other directives and lyric lines are routed to the active
level. -/
def applyKind (st : PState) (k : LineKind) : PState :=
  match k with
  | .comment => st
  | .blank => pushNode st .empty
  | .directiveLine name value =>
    match SECTION_START name with
    | some secName =>
      { nodes := st.nodes,
        cur := some { name := secName,
                      label := if value == "" then none else some value,
                      lines := .nil } }
    | none =>
      match SECTION_END name with
      | some _ =>
        match st.cur with
        | some ps => { nodes := st.nodes.push (mkSection ps), cur := none }
        | none => st
      | none => pushNode st (.directive name value)
  | .lyricLine content => pushNode st (parseLyricLine content)

/-- One iteration of the parser's loop: trim the trailing whitespace of the
raw line, classify it, apply it to the state. -/
def parseStep (st : PState) (rawLine : List Char) : PState :=
  applyKind st (classify (trimEndL rawLine))

/-- Close any unclosed section at end of input. -/
def finishParse (st : PState) : AstNodes :=
  match st.cur with
  | some ps => st.nodes.push (mkSection ps)
  | none => st.nodes

/-- `parse`: trim the whole input's trailing whitespace, return the empty
song for an empty result, otherwise fold the per-line step over the physical
lines and close any open section. -/
def parse (input : String) : Song :=
  let trimmed := trimEndL input.data
  if trimmed.isEmpty then ⟨.nil⟩
  else ⟨finishParse ((splitLines trimmed).foldl parseStep ⟨.nil, none⟩)⟩

/-! ## Transposer (src/lib/transpose.ts) -/

/-- Notation system: standard (B is B natural) or German (H is B natural, B
is B flat).  The source calls this type `Notation`. -/
inductive NoteConvention where
  | standard
  | german
deriving DecidableEq, Fintype

/-- Whether to prefer sharps or flats when transposing. -/
inductive AccidentalPreference where
  | sharp
  | flat
deriving DecidableEq, Fintype

/-- `STANDARD_NOTE_MAP`: semitone values for natural notes in standard
notation (lookup fails for letters outside the map, like `H`). -/
def STANDARD_NOTE_MAP (c : Char) : Option Int :=
  if c == 'C' then some 0
  else if c == 'D' then some 2
  else if c == 'E' then some 4
  else if c == 'F' then some 5
  else if c == 'G' then some 7
  else if c == 'A' then some 9
  else if c == 'B' then some 11
  else none

/-- `GERMAN_NOTE_MAP`: semitone values for natural notes in German notation
(H is B natural, B is B flat). -/
def GERMAN_NOTE_MAP (c : Char) : Option Int :=
  if c == 'C' then some 0
  else if c == 'D' then some 2
  else if c == 'E' then some 4
  else if c == 'F' then some 5
  else if c == 'G' then some 7
  else if c == 'A' then some 9
  else if c == 'B' then some 10
  else if c == 'H' then some 11
  else none

/-- `SEMITONE_TO_NOTE`: the four 12-entry semitone-to-note-name tables,
indexed by notation system and accidental preference.  Indices outside
0..11 never arise in the source (the computed pitch class is already
reduced); they map to the empty string here. -/
def SEMITONE_TO_NOTE (conv : NoteConvention) (pref : AccidentalPreference)
    (n : Nat) : String :=
  match conv, pref, n with
  | .standard, .sharp, 0 => "C"
  | .standard, .sharp, 1 => "C#"
  | .standard, .sharp, 2 => "D"
  | .standard, .sharp, 3 => "D#"
  | .standard, .sharp, 4 => "E"
  | .standard, .sharp, 5 => "F"
  | .standard, .sharp, 6 => "F#"
  | .standard, .sharp, 7 => "G"
  | .standard, .sharp, 8 => "G#"
  | .standard, .sharp, 9 => "A"
  | .standard, .sharp, 10 => "A#"
  | .standard, .sharp, 11 => "B"
  | .standard, .flat, 0 => "C"
  | .standard, .flat, 1 => "Db"
  | .standard, .flat, 2 => "D"
  | .standard, .flat, 3 => "Eb"
  | .standard, .flat, 4 => "E"
  | .standard, .flat, 5 => "F"
  | .standard, .flat, 6 => "Gb"
  | .standard, .flat, 7 => "G"
  | .standard, .flat, 8 => "Ab"
  | .standard, .flat, 9 => "A"
  | .standard, .flat, 10 => "Bb"
  | .standard, .flat, 11 => "B"
  | .german, .sharp, 0 => "C"
  | .german, .sharp, 1 => "C#"
  | .german, .sharp, 2 => "D"
  | .german, .sharp, 3 => "D#"
  | .german, .sharp, 4 => "E"
  | .german, .sharp, 5 => "F"
  | .german, .sharp, 6 => "F#"
  | .german, .sharp, 7 => "G"
  | .german, .sharp, 8 => "G#"
  | .german, .sharp, 9 => "A"
  | .german, .sharp, 10 => "A#"
  | .german, .sharp, 11 => "H"
  | .german, .flat, 0 => "C"
  | .german, .flat, 1 => "Db"
  | .german, .flat, 2 => "D"
  | .german, .flat, 3 => "Eb"
  | .german, .flat, 4 => "E"
  | .german, .flat, 5 => "F"
  | .german, .flat, 6 => "Gb"
  | .german, .flat, 7 => "G"
  | .german, .flat, 8 => "Ab"
  | .german, .flat, 9 => "A"
  | .german, .flat, 10 => "B"
  | .german, .flat, 11 => "H"
  | _, _, _ => ""

/-- `accidentalOffset`: semitone offsets of the accidental markers. -/
def accidentalOffset (acc : String) : Int :=
  if acc == "#" then 1
  else if acc == "##" then 2
  else if acc == "b" then -1
  else if acc == "bb" then -2
  else 0

/-- A root letter `[A-Ha-h]` of the regex `ROOT_REGEX`. -/
def isRootLetter (c : Char) : Bool :=
  (65 ≤ c.toNat && c.toNat ≤ 72) || (97 ≤ c.toNat && c.toNat ≤ 104)

/-- A JavaScript line terminator, which `.` in a regex never matches and
over which `$` does not look (no `m` flag in the source's regexes). -/
def isLineTerm (c : Char) : Bool :=
  c == '\n' || c == '\r' || c == '\u2028' || c == '\u2029'

/-- The accidental group `(#{1,2}|b{1,2})?` of `ROOT_REGEX`, matched
greedily after the root letter; returns the marker and the remaining
quality suffix. -/
def splitAcc : List Char → String × List Char
  | '#' :: '#' :: rest => ("##", rest)
  | '#' :: rest => ("#", rest)
  | 'b' :: 'b' :: rest => ("bb", rest)
  | 'b' :: rest => ("b", rest)
  | rest => ("", rest)

/-- The match of `ROOT_REGEX = /^([A-Ha-h])(#{1,2}|b{1,2})?(.*)$/` against a
chord: the raw root letter, the accidental marker (empty when the group did
not participate) and the quality suffix.  The match fails when the first
character is not a root letter, or when the remainder contains a line
terminator (which `.*$` cannot span). -/
def matchRoot (cs : List Char) : Option (Char × String × List Char) :=
  match cs with
  | [] => none
  | c :: rest =>
    if isRootLetter c && rest.all (fun d => !isLineTerm d) then
      let p := splitAcc rest
      some (c, p.1, p.2)
    else none

/-- Body of `transposeChord`: split slash chords at the first `/` and
transpose both parts independently; otherwise decompose via `ROOT_REGEX`,
normalise the root letter to upper case, look it up in the note map, shift
by the accidental offset plus the semitone count reduced to a pitch class,
and emit the note table entry followed by the untouched quality suffix.
Unrecognised tokens are returned unchanged.  Fuel is structural; every
recursive call strictly shrinks the token, so the initial fuel
`length + 1` is never exhausted. -/
def transposeChordAux (noteMap : Char → Option Int) (noteTable : Nat → String)
    (semitones : Int) : Nat → List Char → List Char
  | 0, cs => cs
  | fuel + 1, cs =>
    let si := idxOfChar '/' cs
    if si < cs.length then
      transposeChordAux noteMap noteTable semitones fuel (cs.take si) ++
        '/' :: transposeChordAux noteMap noteTable semitones fuel (cs.drop (si + 1))
    else
      match matchRoot cs with
      | none => cs
      | some (r, acc, quality) =>
        match noteMap r.toUpper with
        | none => cs
        | some base =>
          let newSemitone := ((base + accidentalOffset acc + semitones) % 12 + 12) % 12
          (noteTable newSemitone.toNat).data ++ quality

/-- `transposeChord`: transpose a single chord string by the given number of
semitones, with the note map and note table of the resolved notation system
and accidental preference. -/
def transposeChord (chord : String) (semitones : Int)
    (noteMap : Char → Option Int) (noteTable : Nat → String) : String :=
  (transposeChordAux noteMap noteTable semitones (chord.data.length + 1) chord.data).asString

mutual
/-- `iterateChordsInNode`: the chord strings of one node, in order; empty
chord fields ("" is falsy in the source's `if (pair.chord)`) are skipped. -/
def nodeChords : AstNode → List String
  | .line cs => (cs.map Chord.chord).filter (fun c => c ≠ "")
  | .sect _ _ ls => listChords ls
  | .directive _ _ => []
  | .empty => []
/-- `iterateChords` over a node sequence. -/
def listChords : AstNodes → List String
  | .nil => []
  | .cons n ns => nodeChords n ++ listChords ns
end

/-- `iterateChords`: all chord strings of a song, in order. -/
def songChords (s : Song) : List String :=
  listChords s.nodes

/-- `detectNotation`: German notation exactly when some chord's root letter
is `H` (case-insensitive). -/
def detectConvention (song : Song) : NoteConvention :=
  if (songChords song).any (fun c =>
      match matchRoot c.data with
      | some (r, _, _) => r.toUpper == 'H'
      | none => false) then
    .german
  else .standard

/-- The body of the counting loop in `detectAccidentalPreference`: a chord whose
root matched with a non-empty accidental marker bumps the sharp counter when
the marker contains `#` and the flat counter when it contains `b`. -/
def accCountStep (p : Nat × Nat) (c : String) : Nat × Nat :=
  match matchRoot c.data with
  | some (_, acc, _) =>
    if acc ≠ "" then
      ((if acc.data.contains '#' then p.1 + 1 else p.1),
       (if acc.data.contains 'b' then p.2 + 1 else p.2))
    else p
  | none => p

/-- `detectAccidentalPreference`: count chords whose accidental marker
contains `#` against those whose marker contains `b`; ties default to flat
for German notation and sharp for standard; otherwise the more frequent
accidental wins. -/
def detectAccidentalPreference (song : Song) (conv : NoteConvention) :
    AccidentalPreference :=
  let counts := (songChords song).foldl accCountStep (0, 0)
  if counts.1 = counts.2 then
    (if conv = .german then .flat else .sharp)
  else if counts.2 > counts.1 then .flat
  else .sharp

/-- Options for the transpose function.  The source's field `notation` is
called `convention` here. -/
structure TransposeOptions where
  convention : Option NoteConvention := none
  accidentalPreference : Option AccidentalPreference := none
deriving DecidableEq

/-- `transposeLine`: rebuild a lyric line, transposing every non-empty chord
field and passing every lyric through unchanged. -/
def transposeLine (cs : List Chord) (semitones : Int)
    (noteMap : Char → Option Int) (noteTable : Nat → String) : List Chord :=
  cs.map fun pair =>
    ⟨if pair.chord ≠ "" then transposeChord pair.chord semitones noteMap noteTable
      else "", pair.lyric⟩

mutual
/-- `transposeNode`: rebuild one node; lyric lines via `transposeLine`,
`key` directives with a non-empty value get a transposed value, sections are
rebuilt recursively with the label carried over only when truthy (a
non-empty string), everything else passes through. -/
def transposeNode (node : AstNode) (semitones : Int)
    (noteMap : Char → Option Int) (noteTable : Nat → String) : AstNode :=
  match node with
  | .line cs => .line (transposeLine cs semitones noteMap noteTable)
  | .directive name value =>
    if name = "key" ∧ value ≠ "" then
      .directive name (transposeChord value semitones noteMap noteTable)
    else .directive name value
  | .sect name label ls =>
    .sect name
      (match label with
       | some v => if v ≠ "" then some v else none
       | none => none)
      (transposeList ls semitones noteMap noteTable)
  | .empty => .empty
/-- `transposeNode` mapped over a node sequence. -/
def transposeList (ns : AstNodes) (semitones : Int)
    (noteMap : Char → Option Int) (noteTable : Nat → String) : AstNodes :=
  match ns with
  | .nil => .nil
  | .cons n rest =>
    .cons (transposeNode n semitones noteMap noteTable)
      (transposeList rest semitones noteMap noteTable)
end

/-- `transpose`: the zero-semitone case returns the very input song;
otherwise resolve the notation system and accidental preference (explicit
option or auto-detection), pick the note map and table, and rebuild every
node. -/
def transpose (song : Song) (semitones : Int)
    (options : TransposeOptions) : Song :=
  if semitones = 0 then song
  else
    let conv := options.convention.getD (detectConvention song)
    let accPref := options.accidentalPreference.getD
      (detectAccidentalPreference song conv)
    let noteMap := if conv = .german then GERMAN_NOTE_MAP else STANDARD_NOTE_MAP
    let noteTable := SEMITONE_TO_NOTE conv accPref
    ⟨transposeList song.nodes semitones noteMap noteTable⟩

/-! ## Renderer (src/lib/renderer.ts) -/

/-- One global single-character `String.prototype.replace(/c/g, repl)`. -/
def replAll (pat : Char) (repl : List Char) (cs : List Char) : List Char :=
  (cs.map fun c => if c == pat then repl else [c]).flatten

/-- `escapeHtml`: the four sequential global replacements of the source, in
order: `&`, then `<`, then `>`, then `"`. -/
def escapeHtmlL (cs : List Char) : List Char :=
  replAll '"' "&quot;".data
    (replAll '>' "&gt;".data
      (replAll '<' "&lt;".data
        (replAll '&' "&amp;".data cs)))

/-- `escapeHtml` on strings. -/
def escapeHtml (text : String) : String :=
  (escapeHtmlL text.data).asString

/-- `renderChord`: one chord/lyric pair; an empty chord renders an empty
chord span, an empty escaped lyric renders a non-breaking space. -/
def renderChordL (pair : Chord) : List Char :=
  let chord :=
    if pair.chord ≠ "" then
      "<span class=\"chord\">".data ++ escapeHtmlL pair.chord.data ++ "</span>".data
    else "<span class=\"chord\"></span>".data
  let e := escapeHtmlL pair.lyric.data
  let lyric :=
    "<span class=\"lyric\">".data ++ (if e.isEmpty then ['\u00a0'] else e) ++ "</span>".data
  "<span class=\"chord-lyric\">".data ++ chord ++ lyric ++ "</span>".data

/-- `renderLine`: a line whose chord fields are all empty renders as a plain
div around the concatenated escaped lyrics; otherwise every pair renders via
`renderChordL`. -/
def renderLineL (cs : List Chord) : List Char :=
  let hasChords := cs.any fun c => c.chord ≠ ""
  if !hasChords then
    "<div class=\"line\">".data ++
      escapeHtmlL ((cs.map fun c => c.lyric.data).flatten) ++ "</div>".data
  else
    "<div class=\"line\">".data ++ (cs.map renderChordL).flatten ++ "</div>".data

/-- `renderDirective`: dispatch on the canonical directive name; unknown
names render as a generic metadata div whose class embeds the escaped
name. -/
def renderDirectiveL (name value : String) : List Char :=
  let v := escapeHtmlL value.data
  if name == "title" then
    "<h1 class=\"song-title\">".data ++ v ++ "</h1>".data
  else if name == "subtitle" then
    "<h2 class=\"song-subtitle\">".data ++ v ++ "</h2>".data
  else if name == "comment" then
    "<p class=\"comment\">".data ++ v ++ "</p>".data
  else if name == "comment_italic" then
    "<p class=\"comment comment-italic\"><i>".data ++ v ++ "</i></p>".data
  else if name == "comment_box" then
    "<p class=\"comment comment-box\">".data ++ v ++ "</p>".data
  else
    "<div class=\"meta meta-".data ++ escapeHtmlL name.data ++ "\">".data ++
      v ++ "</div>".data

/-- `Array.prototype.flatten("\n")`. -/
def joinNL : List (List Char) → List Char
  | [] => []
  | [x] => x
  | x :: xs => x ++ '\n' :: joinNL xs

mutual
/-- `renderNode`: dispatch on the node kind; sections wrap their label (when
truthy) and their children joined by newlines. -/
def renderNodeL : AstNode → List Char
  | .line cs => renderLineL cs
  | .directive name value => renderDirectiveL name value
  | .sect name label ls =>
    let labelPart :=
      match label with
      | some v =>
        if v ≠ "" then
          "<div class=\"section-label\">".data ++ escapeHtmlL v.data ++ "</div>\n".data
        else []
      | none => []
    "<div class=\"section section-".data ++ escapeHtmlL name.data ++ "\">\n".data ++
      labelPart ++ joinNL (renderListL ls) ++ "\n</div>".data
  | .empty => "<div class=\"empty-line\"></div>".data
/-- `renderNode` mapped over a node sequence. -/
def renderListL : AstNodes → List (List Char)
  | .nil => []
  | .cons n ns => renderNodeL n :: renderListL ns
end

/-- Whether a node sequence is empty (`song.nodes.length === 0`). -/
def AstNodes.isNil : AstNodes → Bool
  | .nil => true
  | .cons _ _ => false

/-- `DEFAULT_STYLES`, already trimmed as in the source. -/
def DEFAULT_STYLES : String :=
  ".song-title \x7b margin: 0 0 0.25em; \x7d\n" ++
  ".song-subtitle \x7b margin: 0 0 0.5em; font-weight: normal; \x7d\n" ++
  ".comment \x7b font-style: italic; margin: 0.5em 0; \x7d\n" ++
  ".comment-box \x7b border: 1px solid #000; padding: 0.25em 0.5em; font-style: normal; \x7d\n" ++
  ".section \x7b margin: 1em 0; \x7d\n" ++
  ".section-chorus \x7b border-left: 3px solid #000; padding-left: 0.75em; \x7d\n" ++
  ".section-tab \x7b font-family: monospace; white-space: pre; font-weight: bold; line-height: 0.5; \x7d\n" ++
  ".section-tab .line \x7b display: block; \x7d\n" ++
  ".section-label \x7b font-weight: bold; margin-bottom: 0.25em; \x7d\n" ++
  ".line \x7b display: flex; flex-wrap: wrap; margin: 0; line-height: 1.1; \x7d\n" ++
  ".chord-lyric \x7b display: inline-flex; flex-direction: column; margin-right: 0; \x7d\n" ++
  ".chord \x7b font-weight: bold; color: #d00; font-size: 0.9em; min-height: 1.2em; white-space: pre; \x7d\n" ++
  ".lyric \x7b white-space: pre; \x7d\n" ++
  ".empty-line \x7b height: 1em; \x7d\n" ++
  ".meta \x7b color: #666; margin: 0.25em 0; \x7d\n" ++
  "@media print \x7b .chord \x7b color: #000; \x7d \x7d"

/-- Everything the full-page template emits before the body. -/
def shellPre : String :=
  "<!DOCTYPE html>\n<html lang=\"en\">\n<head>\n<meta charset=\"UTF-8\">\n" ++
  "<meta name=\"viewport\" content=\"width=device-width, initial-scale=1.0\">\n" ++
  "<style>\n" ++ DEFAULT_STYLES ++ "\n</style>\n</head>\n<body>\n<div class=\"song\">\n"

/-- Everything the full-page template emits after the body. -/
def shellPost : String :=
  "\n</div>\n</body>\n</html>"

/-- Options for the renderer. -/
structure RenderOptions where
  fullPage : Bool := false
deriving DecidableEq

/-- `render`: the empty song renders as the empty string; otherwise the
top-level nodes render joined by newlines, wrapped in the full document
shell when `fullPage` is set. -/
def render (song : Song) (options : RenderOptions) : String :=
  if song.nodes.isNil then ""
  else
    let body := joinNL (renderListL song.nodes)
    if options.fullPage then (shellPre.data ++ body ++ shellPost.data).asString
    else body.asString

/-! ## Composition entry point (src/lib/index.ts) -/

/-- Combined options for the `chordproToHtml` pipeline, from
src/lib/types.ts (the source's `notation` field is `convention` here). -/
structure ChordproOptions where
  fullPage : Bool := false
  transpose : Option Int := none
  convention : Option NoteConvention := none
  accidentalPreference : Option AccidentalPreference := none
deriving DecidableEq

/-- `chordproToHtml` exactly as implemented in src/lib/index.ts: it renders
the parsed input with the render options.  No call to `transpose` occurs,
so the transposition-related fields of the combined options are never
read. -/
def chordproToHtml (input : String) (options : ChordproOptions) : String :=
  render (parse input) { fullPage := options.fullPage }

/-! ## Specification-side definitions

Definitions below restate properties claimed by the specification in forms
suitable for comparison with the embedded source functions above. -/

/-- The pitch-class reduction `((z % 12) + 12) % 12` as a natural number. -/
def idx (z : Int) : Nat :=
  ((z % 12 + 12) % 12).toNat

/-- The note map `transpose` selects for a notation system. -/
def noteMapOf (conv : NoteConvention) : Char → Option Int :=
  if conv = .german then GERMAN_NOTE_MAP else STANDARD_NOTE_MAP

/-- A quality suffix that keeps a chord within the canonical fragment of the
chord grammar: no slash, no leading accidental character, no line
terminator. -/
def qOk (q : List Char) : Bool :=
  !q.contains '/' &&
    (match q.head? with
     | some c => !(c == '#' || c == 'b')
     | none => true) &&
    q.all fun c => !isLineTerm c

/-- The table entry for pitch class `k` decomposes as a root letter plus at
most one accidental character whose combined semitone value is `k` again
under the matching note map. -/
def entryOk (conv : NoteConvention) (pref : AccidentalPreference) (k : Nat) : Bool :=
  match (SEMITONE_TO_NOTE conv pref k).data with
  | [r] => isRootLetter r && (noteMapOf conv r.toUpper == some (k : Int))
  | [r, a] =>
    isRootLetter r && (a == '#' || a == 'b') &&
      (noteMapOf conv r.toUpper ==
        some ((k : Int) - accidentalOffset (String.mk [a])))
  | _ => false

/-- Pointwise comparison of chord pair lists: same length and identical
lyric fields (chord fields are unconstrained). -/
def chordFrame : List Chord → List Chord → Bool
  | [], [] => true
  | p :: ps, q :: qs => (p.lyric == q.lyric) && chordFrame ps qs
  | _, _ => false

/-- How a section label survives transposition: a non-empty label is kept,
an empty-string label is dropped (JavaScript truthiness in the source). -/
def labelFrame (l l' : Option String) : Bool :=
  match l with
  | some v => if v == "" then l' == none else l' == some v
  | none => l' == none

mutual
/-- The frame a transposition must preserve: same node kind and structure,
identical lyrics, identical directive names, identical non-`key` directive
values, labels per `labelFrame`; chord strings and `key` values are
unconstrained. -/
def sameFrame : AstNode → AstNode → Bool
  | .line cs, .line cs' => chordFrame cs cs'
  | .directive n v, .directive n' v' => (n == n') && (n == "key" || v == v')
  | .sect n l ls, .sect n' l' ls' => (n == n') && labelFrame l l' && sameFrameList ls ls'
  | .empty, .empty => true
  | _, _ => false
/-- `sameFrame` on node sequences. -/
def sameFrameList : AstNodes → AstNodes → Bool
  | .nil, .nil => true
  | .cons x xs, .cons y ys => sameFrame x y && sameFrameList xs ys
  | _, _ => false
end

/-- All nodes of a sequence satisfy a predicate. -/
def nodesAll (p : AstNode → Bool) : AstNodes → Bool
  | .nil => true
  | .cons n ns => p n && nodesAll p ns

/-- What may legally sit inside a section: anything except a further
section, with lyric lines carrying at least one chord pair. -/
def innerOk : AstNode → Bool
  | .line cs => !cs.isEmpty
  | .sect _ _ _ => false
  | .directive _ _ => true
  | .empty => true

/-- The structural invariant for one top-level node. -/
def nodeFlat : AstNode → Bool
  | .line cs => !cs.isEmpty
  | .sect _ _ ls => nodesAll innerOk ls
  | .directive _ _ => true
  | .empty => true

/-- The structural invariant claimed for every parsed song: non-empty chord
pair lists everywhere and flat section nesting. -/
def songOk (s : Song) : Bool :=
  nodesAll nodeFlat s.nodes

/-- A classified line that opens or closes a section. -/
def isBoundary : LineKind → Bool
  | .directiveLine name _ => (SECTION_START name).isSome || (SECTION_END name).isSome
  | _ => false

/-- The nodes a single non-boundary line contributes to the open section. -/
def lineContrib (l : List Char) : AstNodes :=
  match classify (trimEndL l) with
  | .comment => .nil
  | .blank => .cons .empty .nil
  | .directiveLine n v => .cons (.directive n v) .nil
  | .lyricLine c => .cons (parseLyricLine c) .nil

/-- The nodes a run of non-boundary lines contributes to the open section. -/
def sectionContribs : List (List Char) → AstNodes
  | [] => .nil
  | l :: ls => lineContrib l ++ sectionContribs ls

/-- The accidental marker of a chord token's root, empty when the token has
no root match or no accidental. -/
def rootAcc (c : String) : String :=
  match matchRoot c.data with
  | some (_, acc, _) => acc
  | none => ""

/-- The characters `escapeHtml` rewrites. -/
def isDangerous (c : Char) : Bool :=
  c == '&' || c == '<' || c == '>' || c == '"'

/-- Character-wise specification of `escapeHtml`. -/
def escChar (c : Char) : List Char :=
  if c == '&' then "&amp;".data
  else if c == '<' then "&lt;".data
  else if c == '>' then "&gt;".data
  else if c == '"' then "&quot;".data
  else [c]

/-- Occurrences of `c` contributed by the fixed markup of one chord/lyric
pair (identical for empty and non-empty chords and lyrics). -/
def pairTplCount (c : Char) : Nat :=
  ("<span class=\"chord-lyric\">".data ++ "<span class=\"chord\">".data ++
    "</span>".data ++ "<span class=\"lyric\">".data ++ "</span>".data ++
    "</span>".data).count c

/-- Occurrences of `c` contributed by the fixed markup of one lyric line. -/
def lineTplCount (c : Char) (cs : List Chord) : Nat :=
  if !(cs.any fun p => p.chord ≠ "") then
    ("<div class=\"line\">".data ++ "</div>".data).count c
  else
    ("<div class=\"line\">".data ++ "</div>".data).count c + cs.length * pairTplCount c

/-- Occurrences of `c` contributed by the fixed markup of one directive;
only the dispatch on the name is consulted, never the characters of the
name or value. -/
def dirTplCount (c : Char) (name : String) : Nat :=
  if name == "title" then
    ("<h1 class=\"song-title\">".data ++ "</h1>".data).count c
  else if name == "subtitle" then
    ("<h2 class=\"song-subtitle\">".data ++ "</h2>".data).count c
  else if name == "comment" then
    ("<p class=\"comment\">".data ++ "</p>".data).count c
  else if name == "comment_italic" then
    ("<p class=\"comment comment-italic\"><i>".data ++ "</i></p>".data).count c
  else if name == "comment_box" then
    ("<p class=\"comment comment-box\">".data ++ "</p>".data).count c
  else
    ("<div class=\"meta meta-".data ++ "\">".data ++ "</div>".data).count c

mutual
/-- Occurrences of `c` contributed by fixed markup when rendering a node:
a function of the node's shape alone, never of the characters of any of its
content strings. -/
def tplNode (c : Char) : AstNode → Nat
  | .line cs => lineTplCount c cs
  | .directive name _ => dirTplCount c name
  | .sect _ label ls =>
    ("<div class=\"section section-".data ++ "\">\n".data ++ "\n</div>".data).count c +
      (match label with
       | some v =>
         if v ≠ "" then
           ("<div class=\"section-label\">".data ++ "</div>\n".data).count c
         else 0
       | none => 0) +
      tplList c ls
  | .empty => "<div class=\"empty-line\"></div>".data.count c
/-- `tplNode` summed over a node sequence. -/
def tplList (c : Char) : AstNodes → Nat
  | .nil => 0
  | .cons n ns => tplNode c n + tplList c ns
end

mutual
/-- Number of dangerous characters among the content strings the renderer
escapes in one node. -/
def dangerNode : AstNode → Nat
  | .line cs =>
    if !(cs.any fun p => p.chord ≠ "") then
      ((cs.map fun p => p.lyric.data).flatten).countP isDangerous
    else
      (cs.map fun p =>
        p.chord.data.countP isDangerous + p.lyric.data.countP isDangerous).sum
  | .directive name value =>
    (if name == "title" || name == "subtitle" || name == "comment" ||
        name == "comment_italic" || name == "comment_box" then 0
     else name.data.countP isDangerous) + value.data.countP isDangerous
  | .sect name label ls =>
    name.data.countP isDangerous +
      (match label with
       | some v => if v ≠ "" then v.data.countP isDangerous else 0
       | none => 0) +
      dangerList ls
  | .empty => 0
/-- `dangerNode` summed over a node sequence. -/
def dangerList : AstNodes → Nat
  | .nil => 0
  | .cons n ns => dangerNode n + dangerList ns
end

/-- Occurrences of `c` in the rendered song that come from fixed markup: a
function of the song's shape and the option flag only. -/
def tplSong (c : Char) (song : Song) (b : Bool) : Nat :=
  if song.nodes.isNil then 0
  else
    tplList c song.nodes +
      (if b then shellPre.data.count c + shellPost.data.count c else 0)

/-- Number of dangerous characters among all content strings of the song the
renderer escapes. -/
def dangerSong (song : Song) : Nat :=
  if song.nodes.isNil then 0 else dangerList song.nodes

mutual
/-- No section named `nm` occurs anywhere in the node (recursively). -/
def avoidsSection (nm : String) : AstNode → Bool
  | .sect n _ ls => (n != nm) && avoidsSectionList nm ls
  | .line _ => true
  | .directive _ _ => true
  | .empty => true
/-- `avoidsSection` over a node sequence. -/
def avoidsSectionList (nm : String) : AstNodes → Bool
  | .nil => true
  | .cons n ns => avoidsSection nm n && avoidsSectionList nm ns
end

/-- The invariant the parser's loop maintains: completed nodes satisfy the
structural invariant, and the lines of the open section, if any, are valid
section members. -/
def stateOk (st : PState) : Prop :=
  nodesAll nodeFlat st.nodes = true ∧
  ∀ ps, st.cur = some ps → nodesAll innerOk ps.lines = true

/-! ## Helper lemmas -/

theorem AstNodes.append_nil : ∀ ns : AstNodes, ns ++ AstNodes.nil = ns
  | .nil => rfl
  | .cons n ns => by
    show AstNodes.cons n (ns ++ AstNodes.nil) = AstNodes.cons n ns
    rw [AstNodes.append_nil ns]

theorem AstNodes.append_assoc : ∀ a b c : AstNodes, a ++ b ++ c = a ++ (b ++ c)
  | .nil, _, _ => rfl
  | .cons n ns, b, c => by
    show AstNodes.cons n (ns ++ b ++ c) = AstNodes.cons n (ns ++ (b ++ c))
    rw [AstNodes.append_assoc ns b c]

/-! ## Theorems for the claims -/

/-- C3: for every Song and options value, transposing by zero semitones
returns the input song itself (the zero branch of `transpose` returns its
argument unchanged). -/
theorem transpose_zero_identity (s : Song) (o : TransposeOptions) :
    transpose s 0 o = s := rfl

/-- C1 (code evaluation at the failing input): `chordproToHtml` with
`transpose := some 2` returns exactly the untransposed rendering and differs
from the rendering of the transposed song that the claim (and the library's
own test suite) demands. -/
theorem chordproToHtml_ignores_transpose :
    chordproToHtml "[C]Hello [Am]world" { transpose := some 2 } =
      render (parse "[C]Hello [Am]world") {} ∧
    chordproToHtml "[C]Hello [Am]world" { transpose := some 2 } ≠
      render (transpose (parse "[C]Hello [Am]world") 2 {}) {} :=
  ⟨rfl, by decide⟩

/-- C2 (counterexample): transposing `Db` up one semitone and back down with
the standard/sharp table yields `C#`, not the original spelling `Db`, so
round-tripping does not restore every chord text. -/
theorem transposeChord_roundtrip_cx :
    transposeChord
        (transposeChord "Db" 1 STANDARD_NOTE_MAP (SEMITONE_TO_NOTE .standard .sharp))
        (-1) STANDARD_NOTE_MAP (SEMITONE_TO_NOTE .standard .sharp) = "C#" ∧
      ("C#" : String) ≠ "Db" :=
  ⟨by decide, by decide⟩

/-- C4 (counterexample): a section whose label is the empty string loses its
label under transposition (the source's truthiness test drops it), so not
every section label passes through unchanged. -/
theorem transpose_drops_empty_label_cx :
    transpose ⟨.cons (.sect "verse" (some "") .nil) .nil⟩ 1 {} =
      ⟨.cons (.sect "verse" none .nil) .nil⟩ ∧
      (some "" : Option String) ≠ none :=
  ⟨by decide, by decide⟩

/-- C9: a section-start directive parsed while a section is open replaces
the open section without appending it: the completed nodes are untouched and
the new, empty section becomes current, so the replaced section and its
contents never reach the resulting song — as the concrete parse shows, where
the chorus and its line have vanished. -/
theorem sectionStart_discards_open_section :
    (∀ (st : PState) (ps : PSection) (name value secName : String),
        st.cur = some ps → SECTION_START name = some secName →
        applyKind st (.directiveLine name value) =
          { nodes := st.nodes,
            cur := some { name := secName,
                          label := if value == "" then none else some value,
                          lines := .nil } }) ∧
    parse "\x7bsoc\x7d\n[C]A\n\x7bsov\x7d\nB" =
      ⟨.cons (.sect "verse" none (.cons (.line [⟨"", "B"⟩]) .nil)) .nil⟩ := by
  constructor
  · intro st ps name value secName _hcur hstart
    simp only [applyKind, hstart]
  · decide

theorem sectionStart_discards_open_section_witness :
    ((⟨AstNodes.nil, some ⟨"chorus", none, AstNodes.cons .empty .nil⟩⟩ :
        PState).cur = some ⟨"chorus", none, AstNodes.cons .empty .nil⟩ ∧
      SECTION_START "start_of_verse" = some "verse") ∧
    applyKind ⟨AstNodes.nil, some ⟨"chorus", none, AstNodes.cons .empty .nil⟩⟩
        (.directiveLine "start_of_verse" "Verse 2") =
      { nodes := AstNodes.nil,
        cur := some { name := "verse",
                      label := if "Verse 2" == "" then none else some "Verse 2",
                      lines := .nil } } :=
  ⟨⟨rfl, by decide⟩,
    sectionStart_discards_open_section.1 _ ⟨"chorus", none, AstNodes.cons .empty .nil⟩
      "start_of_verse" "Verse 2" "verse" rfl (by decide)⟩

theorem SECTION_END_isSome_not_start (name : String)
    (h : (SECTION_END name).isSome = true) : SECTION_START name = none := by
  unfold SECTION_END at h
  by_cases h1 : name == "end_of_chorus"
  · have : name = "end_of_chorus" := by simpa using h1
    subst this; decide
  by_cases h2 : name == "end_of_verse"
  · have : name = "end_of_verse" := by simpa using h2
    subst this; decide
  by_cases h3 : name == "end_of_tab"
  · have : name = "end_of_tab" := by simpa using h3
    subst this; decide
  by_cases h4 : name == "end_of_bridge"
  · have : name = "end_of_bridge" := by simpa using h4
    subst this; decide
  by_cases h5 : name == "end_of_grid"
  · have : name = "end_of_grid" := by simpa using h5
    subst this; decide
  simp [h1, h2, h3, h4, h5] at h

/-- C10: a section-end directive of any of the five kinds closes whichever
section is currently open, whatever its kind and whatever the directive's
value, and is silently consumed (the state is unchanged, no node is
produced) when no section is open; aliases such as `eoc` classify to the
same canonical names. -/
theorem sectionEnd_closes_any_open_section :
    (∀ (st : PState) (name value : String), (SECTION_END name).isSome = true →
        (∀ ps : PSection, st.cur = some ps →
            applyKind st (.directiveLine name value) =
              { nodes := st.nodes.push (mkSection ps), cur := none }) ∧
        (st.cur = none → applyKind st (.directiveLine name value) = st)) ∧
    classify (trimEndL "\x7beoc\x7d".data) = .directiveLine "end_of_chorus" "" := by
  constructor
  · intro st name value h
    have hns := SECTION_END_isSome_not_start name h
    obtain ⟨sec, hsec⟩ := Option.isSome_iff_exists.mp h
    constructor
    · intro ps hcur
      simp only [applyKind, hns, hsec, hcur]
    · intro hcur
      simp only [applyKind, hns, hsec, hcur]
  · decide

theorem sectionEnd_closes_any_open_section_witness :
    ((SECTION_END "end_of_tab").isSome = true ∧
      (⟨AstNodes.nil, some ⟨"verse", some "V", AstNodes.cons .empty .nil⟩⟩ :
        PState).cur = some ⟨"verse", some "V", AstNodes.cons .empty .nil⟩) ∧
    applyKind ⟨AstNodes.nil, some ⟨"verse", some "V", AstNodes.cons .empty .nil⟩⟩
        (.directiveLine "end_of_tab" "ignored") =
      { nodes := AstNodes.nil.push (mkSection ⟨"verse", some "V", AstNodes.cons .empty .nil⟩),
        cur := none } :=
  ⟨⟨by decide, rfl⟩,
    (sectionEnd_closes_any_open_section.1 _ "end_of_tab" "ignored" (by decide)).1
      ⟨"verse", some "V", AstNodes.cons .empty .nil⟩ rfl⟩

theorem nodesAll_append (p : AstNode → Bool) :
    ∀ a b : AstNodes, nodesAll p (a ++ b) = (nodesAll p a && nodesAll p b)
  | .nil, b => by
    show nodesAll p b = (nodesAll p AstNodes.nil && nodesAll p b)
    simp [nodesAll]
  | .cons n ns, b => by
    show nodesAll p (AstNodes.cons n (ns ++ b)) = _
    simp [nodesAll, nodesAll_append p ns b, Bool.and_assoc]

theorem goPairs_no_match_fst :
    ∀ (fuel : Nat) (cs : List Char), (goPairs fuel cs).2 = [] → (goPairs fuel cs).1 = cs := by
  intro fuel
  induction fuel with
  | zero => intro cs _; rfl
  | succ f ih =>
    intro cs h
    cases cs with
    | nil => rfl
    | cons c rest =>
      by_cases hc : c == '['
      · by_cases hj : idxOfChar ']' rest < rest.length
        · simp [goPairs, hc, hj] at h
        · simp [goPairs, hc, hj]
      · have hcf : (c == '[') = false := by simpa using hc
        simp [goPairs, hcf] at h ⊢
        exact ih rest h

theorem lyricPairs_ne_nil (line : List Char) : lyricPairs line ≠ [] := by
  unfold lyricPairs
  rcases h : (goPairs (line.length + 1) line).2 with _ | ⟨m, ms⟩
  · simp [h]
  · simp only [h]
    rcases (goPairs (line.length + 1) line).1.isEmpty with _ | _ <;> simp

theorem stateOk_pushNode (st : PState) (n : AstNode) (h : stateOk st)
    (hin : innerOk n = true) (hflat : nodeFlat n = true) : stateOk (pushNode st n) := by
  obtain ⟨h1, h2⟩ := h
  cases hc : st.cur with
  | some ps =>
    have hred : pushNode st n = { st with cur := some { ps with lines := ps.lines.push n } } := by
      simp [pushNode, hc]
    rw [hred]
    refine ⟨h1, ?_⟩
    intro ps' hp
    obtain rfl := Option.some.inj hp
    show nodesAll innerOk (ps.lines ++ AstNodes.cons n .nil) = true
    simp [nodesAll_append, h2 ps hc, hin, nodesAll]
  | none =>
    have hred : pushNode st n = { st with nodes := st.nodes.push n } := by
      simp [pushNode, hc]
    rw [hred]
    refine ⟨?_, ?_⟩
    · show nodesAll nodeFlat (st.nodes ++ AstNodes.cons n .nil) = true
      simp [nodesAll_append, h1, hflat, nodesAll]
    · intro ps' hp
      simp only [] at hp
      rw [show ({ st with nodes := st.nodes.push n } : PState).cur = st.cur from rfl] at hp
      rw [hc] at hp
      exact absurd hp (by simp)

theorem stateOk_applyKind (st : PState) (k : LineKind) (h : stateOk st) :
    stateOk (applyKind st k) := by
  rcases k with _ | _ | ⟨n, v⟩ | c
  · exact h
  · exact stateOk_pushNode st .empty h rfl rfl
  · show stateOk (applyKind st (.directiveLine n v))
    cases hss : SECTION_START n with
    | some sec =>
      simp only [applyKind, hss]
      refine ⟨h.1, ?_⟩
      intro ps' hp
      obtain rfl := Option.some.inj hp
      rfl
    | none =>
      cases hse : SECTION_END n with
      | some x =>
        simp only [applyKind, hss, hse]
        cases hc : st.cur with
        | some ps =>
          refine ⟨?_, ?_⟩
          · show nodesAll nodeFlat (st.nodes ++ AstNodes.cons (mkSection ps) .nil) = true
            simp [nodesAll_append, h.1, nodesAll, mkSection, nodeFlat, h.2 ps hc]
          · intro ps' hp
            exact absurd hp (by simp)
        | none => exact h
      | none =>
        simp only [applyKind, hss, hse]
        exact stateOk_pushNode st (.directive n v) h rfl rfl
  · refine stateOk_pushNode st (parseLyricLine c) h ?_ ?_
    · show innerOk (.line (lyricPairs c)) = true
      simp [innerOk, lyricPairs_ne_nil]
    · show nodeFlat (.line (lyricPairs c)) = true
      simp [nodeFlat, lyricPairs_ne_nil]

theorem stateOk_foldl :
    ∀ (ls : List (List Char)) (st : PState), stateOk st → stateOk (ls.foldl parseStep st)
  | [], _, h => h
  | l :: ls, st, h =>
    stateOk_foldl ls (parseStep st l) (stateOk_applyKind st (classify (trimEndL l)) h)

theorem songOk_finishParse (st : PState) (h : stateOk st) :
    nodesAll nodeFlat (finishParse st) = true := by
  unfold finishParse
  cases hc : st.cur with
  | some ps =>
    show nodesAll nodeFlat (st.nodes ++ AstNodes.cons (mkSection ps) .nil) = true
    simp [nodesAll_append, h.1, nodesAll, mkSection, nodeFlat, h.2 ps hc]
  | none => exact h.1

/-- C5: every parsed song satisfies both structural invariants — every lyric
line (top level or inside a section) carries at least one chord pair, and no
section contains a section; and a line with no chord bracket match parses to
the single pair with empty chord and the whole line as lyric. -/
theorem parse_invariants :
    (∀ input : String, songOk (parse input) = true) ∧
    (∀ line : List Char, (goPairs (line.length + 1) line).2 = [] →
        lyricPairs line = [⟨"", line.asString⟩]) := by
  constructor
  · intro input
    unfold parse songOk
    by_cases h : (trimEndL input.data).isEmpty
    · simp [h, nodesAll]
    · simp only [h, if_neg, Bool.false_eq_true, not_false_eq_true]
      exact songOk_finishParse _ (stateOk_foldl _ _
        ⟨rfl, fun ps hp => absurd hp (by simp)⟩)
  · intro line h
    have h1 := goPairs_no_match_fst (line.length + 1) line h
    unfold lyricPairs
    simp [h, h1]

theorem parse_invariants_witness :
    ((goPairs ("Hello world".data.length + 1) "Hello world".data).2 = []) ∧
      lyricPairs "Hello world".data = [⟨"", "Hello world"⟩] :=
  ⟨by decide, parse_invariants.2 "Hello world".data (by decide)⟩

/-- C6 (counterexample): a chorus opened by a section-start with no
section-end afterwards, but followed by another section-start, is discarded
rather than kept: the parsed song holds only the verse, and no chorus
section occurs anywhere in it. -/
theorem unclosed_section_claim_cx :
    parse "\x7bstart_of_chorus\x7d\n[C]A\n\x7bstart_of_verse\x7d\nB" =
      ⟨.cons (.sect "verse" none (.cons (.line [⟨"", "B"⟩]) .nil)) .nil⟩ ∧
    avoidsSectionList "chorus"
      (parse "\x7bstart_of_chorus\x7d\n[C]A\n\x7bstart_of_verse\x7d\nB").nodes = true :=
  ⟨by decide, by decide⟩

/-- C6 (amended): when a section is open and none of the remaining lines
opens or closes a section, the open section survives to the end of the
parse: it is appended as the final completed node, containing its existing
lines followed by the contribution of every remaining line; the concrete
conjunct shows a labelled chorus kept open to end of input. -/
theorem openSection_closed_at_end :
    (∀ (ls : List (List Char)) (st : PState) (ps : PSection),
        st.cur = some ps →
        (∀ l ∈ ls, isBoundary (classify (trimEndL l)) = false) →
        finishParse (ls.foldl parseStep st) =
          st.nodes.push (.sect ps.name ps.label (ps.lines ++ sectionContribs ls))) ∧
    parse "\x7bstart_of_chorus: Chorus 2\x7d\nhello" =
      ⟨.cons (.sect "chorus" (some "Chorus 2") (.cons (.line [⟨"", "hello"⟩]) .nil)) .nil⟩ := by
  constructor
  · intro ls
    induction ls with
    | nil =>
      intro st ps hcur _
      simp [finishParse, hcur, sectionContribs, mkSection, AstNodes.append_nil, AstNodes.push]
    | cons l ls ih =>
      intro st ps hcur hb
      have hb1 := hb l (List.mem_cons_self l ls)
      have hb2 : ∀ x ∈ ls, isBoundary (classify (trimEndL x)) = false :=
        fun x hx => hb x (List.mem_cons_of_mem l hx)
      rw [List.foldl_cons]
      rcases hk : classify (trimEndL l) with _ | _ | ⟨n, v⟩ | c
      · rw [show parseStep st l = st from by simp [parseStep, hk, applyKind]]
        rw [ih st ps hcur hb2]
        simp only [sectionContribs, lineContrib, hk]
        rfl
      · rw [show parseStep st l =
            ⟨st.nodes, some ⟨ps.name, ps.label, ps.lines.push .empty⟩⟩ from by
          simp [parseStep, hk, applyKind, pushNode, hcur]]
        rw [ih _ ⟨ps.name, ps.label, ps.lines.push .empty⟩ rfl hb2]
        simp only [sectionContribs, lineContrib, hk, AstNodes.push]
        rw [AstNodes.append_assoc]
      · rw [hk] at hb1
        obtain ⟨hss, hse⟩ : SECTION_START n = none ∧ SECTION_END n = none := by
          simpa [isBoundary] using hb1
        rw [show parseStep st l =
            ⟨st.nodes, some ⟨ps.name, ps.label, ps.lines.push (.directive n v)⟩⟩ from by
          simp [parseStep, hk, applyKind, hss, hse, pushNode, hcur]]
        rw [ih _ ⟨ps.name, ps.label, ps.lines.push (.directive n v)⟩ rfl hb2]
        simp only [sectionContribs, lineContrib, hk, AstNodes.push]
        rw [AstNodes.append_assoc]
      · rw [show parseStep st l =
            ⟨st.nodes, some ⟨ps.name, ps.label, ps.lines.push (parseLyricLine c)⟩⟩ from by
          simp [parseStep, hk, applyKind, pushNode, hcur]]
        rw [ih _ ⟨ps.name, ps.label, ps.lines.push (parseLyricLine c)⟩ rfl hb2]
        simp only [sectionContribs, lineContrib, hk, AstNodes.push]
        rw [AstNodes.append_assoc]
  · decide

theorem openSection_closed_at_end_witness :
    ((⟨AstNodes.nil, some ⟨"chorus", some "Chorus 2", AstNodes.nil⟩⟩ : PState).cur =
        some ⟨"chorus", some "Chorus 2", AstNodes.nil⟩ ∧
      (∀ l ∈ ["hello".data], isBoundary (classify (trimEndL l)) = false)) ∧
    finishParse (["hello".data].foldl parseStep
        ⟨AstNodes.nil, some ⟨"chorus", some "Chorus 2", AstNodes.nil⟩⟩) =
      AstNodes.nil.push
        (.sect "chorus" (some "Chorus 2") (AstNodes.nil ++ sectionContribs ["hello".data])) :=
  ⟨⟨rfl, by decide⟩,
    openSection_closed_at_end.1 ["hello".data] _ ⟨"chorus", some "Chorus 2", AstNodes.nil⟩
      rfl (by decide)⟩

/-- C7: the accidental-preference auto-detection counts, over every chord
token of the song, roots whose accidental marker contains `#` against those
whose marker contains `b`; ties resolve to flat for German and sharp for
standard notation, otherwise the strictly larger count wins; and a non-zero
transposition without an explicit preference behaves exactly as if the
detected preference (against the resolved notation) had been supplied. -/
theorem detect_accidental_preference_spec :
    (∀ (song : Song) (conv : NoteConvention),
        detectAccidentalPreference song conv =
          (if (songChords song).countP (fun c => (rootAcc c).data.contains '#') =
              (songChords song).countP (fun c => (rootAcc c).data.contains 'b') then
            (if conv = .german then .flat else .sharp)
          else if (songChords song).countP (fun c => (rootAcc c).data.contains 'b') >
              (songChords song).countP (fun c => (rootAcc c).data.contains '#') then
            AccidentalPreference.flat
          else .sharp)) ∧
    (∀ (song : Song) (n : Int) (o : TransposeOptions), n ≠ 0 →
        o.accidentalPreference = none →
        transpose song n o =
          transpose song n
            { convention := o.convention,
              accidentalPreference :=
                some (detectAccidentalPreference song
                  (o.convention.getD (detectConvention song))) }) := by
  constructor
  · intro song conv
    have key : ∀ (l : List String) (a b : Nat),
        l.foldl accCountStep (a, b) =
        (a + l.countP (fun c => (rootAcc c).data.contains '#'),
         b + l.countP (fun c => (rootAcc c).data.contains 'b')) := by
      intro l
      induction l with
      | nil => intro a b; simp
      | cons c cs ih =>
        intro a b
        rw [List.foldl_cons, List.countP_cons, List.countP_cons]
        rcases hm : matchRoot c.data with _ | ⟨r, acc, q⟩
        · have hra : rootAcc c = "" := by simp [rootAcc, hm]
          have hstep : accCountStep (a, b) c = (a, b) := by simp [accCountStep, hm]
          rw [hstep, ih a b, hra]
          rfl
        · have hra : rootAcc c = acc := by simp [rootAcc, hm]
          by_cases hne : acc = ""
          · subst hne
            have hstep : accCountStep (a, b) c = (a, b) := by simp [accCountStep, hm]
            rw [hstep, ih a b, hra]
            rfl
          · have hstep : accCountStep (a, b) c =
                ((if acc.data.contains '#' then a + 1 else a),
                 (if acc.data.contains 'b' then b + 1 else b)) := by
              simp [accCountStep, hm, hne]
            rw [hstep, hra]
            by_cases hs : acc.data.contains '#' <;> by_cases hb : acc.data.contains 'b' <;>
              simp only [hs, hb, if_true, if_false] <;> rw [ih] <;>
                simp [hs, hb] <;> omega
    unfold detectAccidentalPreference
    rw [key (songChords song) 0 0]
    simp
  · intro song n o hn ho
    obtain ⟨oc, oa⟩ := o
    simp only at ho
    subst ho
    simp [transpose, hn, Option.getD]

theorem detect_accidental_preference_spec_witness :
    ((2 : Int) ≠ 0 ∧ ({} : TransposeOptions).accidentalPreference = none) ∧
    transpose (parse "[Bb]x [Eb]y") 2 {} =
      transpose (parse "[Bb]x [Eb]y") 2
        { convention := ({} : TransposeOptions).convention,
          accidentalPreference :=
            some (detectAccidentalPreference (parse "[Bb]x [Eb]y")
              (({} : TransposeOptions).convention.getD
                (detectConvention (parse "[Bb]x [Eb]y")))) } :=
  ⟨⟨by decide, rfl⟩,
    detect_accidental_preference_spec.2 (parse "[Bb]x [Eb]y") 2 {} (by decide) rfl⟩

theorem chordFrame_transposeLine (s : Int) (m : Char → Option Int) (t : Nat → String) :
    ∀ cs : List Chord, chordFrame cs (transposeLine cs s m t) = true
  | [] => rfl
  | p :: ps => by
    show (p.lyric == p.lyric && chordFrame ps (transposeLine ps s m t)) = true
    rw [chordFrame_transposeLine s m t ps]
    simp

theorem sameFrame_transposeDirective (s : Int) (m : Char → Option Int)
    (t : Nat → String) (nm v : String) :
    sameFrame (.directive nm v) (transposeNode (.directive nm v) s m t) = true := by
  unfold transposeNode
  split
  · next h => simp [sameFrame, h.1]
  · next h => simp [sameFrame]

theorem sameFrame_transposeSect (s : Int) (m : Char → Option Int)
    (t : Nat → String) (nm : String) (lb : Option String) (ls : AstNodes)
    (hrec : sameFrameList ls (transposeList ls s m t) = true) :
    sameFrame (.sect nm lb ls) (transposeNode (.sect nm lb ls) s m t) = true := by
  rcases lb with _ | v
  · simp [transposeNode, sameFrame, labelFrame, hrec]
  · by_cases hv : v = ""
    · subst hv
      simp [transposeNode, sameFrame, labelFrame, hrec]
    · simp [transposeNode, sameFrame, labelFrame, hv, hrec]

theorem sameFrameList_cons (x y : AstNode) (xs ys : AstNodes)
    (h1 : sameFrame x y = true) (h2 : sameFrameList xs ys = true) :
    sameFrameList (.cons x xs) (.cons y ys) = true := by
  show (sameFrame x y && sameFrameList xs ys) = true
  rw [h1, h2]
  rfl

mutual
theorem sameFrame_transposeNode (s : Int) (m : Char → Option Int) (t : Nat → String) :
    ∀ n : AstNode, sameFrame n (transposeNode n s m t) = true
  | .line cs => chordFrame_transposeLine s m t cs
  | .directive nm v => sameFrame_transposeDirective s m t nm v
  | .sect nm lb ls =>
    sameFrame_transposeSect s m t nm lb ls (sameFrameList_transposeList s m t ls)
  | .empty => rfl
theorem sameFrameList_transposeList (s : Int) (m : Char → Option Int) (t : Nat → String) :
    ∀ ns : AstNodes, sameFrameList ns (transposeList ns s m t) = true
  | .nil => rfl
  | .cons n ns =>
    sameFrameList_cons n (transposeNode n s m t) ns (transposeList ns s m t)
      (sameFrame_transposeNode s m t n) (sameFrameList_transposeList s m t ns)
end

/-- C4 (amended): a non-zero transposition preserves the whole frame of the
song — node count, order and kinds, section nesting, every lyric, every
directive name, every non-`key` directive value, and every non-empty section
label (an empty-string label is dropped); only chord strings and `key`
values may change. -/
theorem transpose_preserves_frame (S : Song) (n : Int) (o : TransposeOptions)
    (hn : n ≠ 0) : sameFrameList S.nodes (transpose S n o).nodes = true := by
  simp only [transpose, if_neg hn]
  exact sameFrameList_transposeList _ _ _ S.nodes

theorem transpose_preserves_frame_witness :
    ((2 : Int) ≠ 0) ∧
    sameFrameList
      (AstNodes.cons (.line [⟨"Am", "Hello"⟩])
        (.cons (.sect "chorus" (some "X") (.cons (.directive "key" "G") .nil)) .nil))
      (transpose
        ⟨AstNodes.cons (.line [⟨"Am", "Hello"⟩])
          (.cons (.sect "chorus" (some "X") (.cons (.directive "key" "G") .nil)) .nil)⟩
        2 {}).nodes = true :=
  ⟨by decide,
    transpose_preserves_frame
      ⟨AstNodes.cons (.line [⟨"Am", "Hello"⟩])
        (.cons (.sect "chorus" (some "X") (.cons (.directive "key" "G") .nil)) .nil)⟩
      2 {} (by decide)⟩

theorem idxOfChar_eq_length (t : Char) :
    ∀ cs : List Char, (∀ c ∈ cs, c ≠ t) → idxOfChar t cs = cs.length
  | [], _ => rfl
  | c :: cs, h => by
    have hc : (c == t) = false := by
      simpa using h c (List.mem_cons_self c cs)
    simp [idxOfChar, hc,
      idxOfChar_eq_length t cs fun x hx => h x (List.mem_cons_of_mem c hx)]

theorem splitAcc_no_marker :
    ∀ q : List Char, (∀ c, q.head? = some c → c ≠ '#' ∧ c ≠ 'b') → splitAcc q = ("", q)
  | [], _ => rfl
  | c :: rest, h => by
    obtain ⟨h1, h2⟩ := h c rfl
    simp [splitAcc, h1, h2]

theorem splitAcc_single (a : Char) (q : List Char) (ha : a = '#' ∨ a = 'b')
    (h : ∀ c, q.head? = some c → c ≠ '#' ∧ c ≠ 'b') :
    splitAcc (a :: q) = (String.mk [a], q) := by
  rcases ha with rfl | rfl
  · cases q with
    | nil => rfl
    | cons c rest => simp [splitAcc, (h c rfl).1]
  · cases q with
    | nil => rfl
    | cons c rest => simp [splitAcc, (h c rfl).2]

theorem qOk_facts (q : List Char) (h : qOk q = true) :
    (∀ c ∈ q, c ≠ '/') ∧ (∀ c, q.head? = some c → c ≠ '#' ∧ c ≠ 'b') ∧
      (∀ c ∈ q, isLineTerm c = false) := by
  have h' := h
  unfold qOk at h'
  obtain ⟨⟨h1, h2⟩, h3⟩ := by
    simpa [Bool.and_eq_true, List.all_eq_true] using h'
  refine ⟨?_, ?_, ?_⟩
  · intro c hc he
    subst he
    exact h1 hc
  · intro c hc
    rw [hc] at h2
    constructor <;> intro he <;> subst he <;> simp at h2
  · intro c hc
    simpa using h3 c hc

theorem matchRoot_pos (c : Char) (rest : List Char) (h1 : isRootLetter c = true)
    (h2 : ∀ d ∈ rest, isLineTerm d = false) :
    matchRoot (c :: rest) = some (c, (splitAcc rest).1, (splitAcc rest).2) := by
  have hall : rest.all (fun d => !isLineTerm d) = true := by
    rw [List.all_eq_true]
    intro d hd
    simp [h2 d hd]
  simp [matchRoot, h1, hall]

theorem root_ne_slash (r : Char) (hr : isRootLetter r = true) : r ≠ '/' := by
  intro he
  subst he
  simp [isRootLetter] at hr

theorem tcaRoot (m : Char → Option Int) (t : Nat → String) (n : Int) (fuel : Nat)
    (r : Char) (q : List Char) (p : Int)
    (hr : isRootLetter r = true) (hm : m r.toUpper = some p) (hq : qOk q = true) :
    transposeChordAux m t n (fuel + 1) (r :: q) = (t (idx (p + n))).data ++ q := by
  obtain ⟨hq1, hq2, hq3⟩ := qOk_facts q hq
  have hslash : ∀ x ∈ (r :: q), x ≠ '/' := by
    intro x hx
    rcases List.mem_cons.mp hx with rfl | hx
    · exact root_ne_slash x hr
    · exact hq1 x hx
  have hidx : idxOfChar '/' (r :: q) = (r :: q).length := idxOfChar_eq_length _ _ hslash
  have hroot : matchRoot (r :: q) = some (r, "", q) := by
    rw [matchRoot_pos r q hr hq3, splitAcc_no_marker q hq2]
  have harith : p + accidentalOffset "" + n = p + n := by
    simp [accidentalOffset]
  simp only [transposeChordAux, hidx, lt_irrefl, if_false, hroot, hm, harith]
  rfl

theorem tcaRootAcc (m : Char → Option Int) (t : Nat → String) (n : Int) (fuel : Nat)
    (r a : Char) (q : List Char) (p : Int)
    (hr : isRootLetter r = true) (ha : a = '#' ∨ a = 'b')
    (hm : m r.toUpper = some p) (hq : qOk q = true) :
    transposeChordAux m t n (fuel + 1) (r :: a :: q) =
      (t (idx (p + accidentalOffset (String.mk [a]) + n))).data ++ q := by
  obtain ⟨hq1, hq2, hq3⟩ := qOk_facts q hq
  have haslash : a ≠ '/' := by rcases ha with rfl | rfl <;> decide
  have haterm : isLineTerm a = false := by rcases ha with rfl | rfl <;> decide
  have hslash : ∀ x ∈ (r :: a :: q), x ≠ '/' := by
    intro x hx
    rcases List.mem_cons.mp hx with rfl | hx
    · exact root_ne_slash x hr
    rcases List.mem_cons.mp hx with rfl | hx
    · exact haslash
    · exact hq1 x hx
  have hidx : idxOfChar '/' (r :: a :: q) = (r :: a :: q).length :=
    idxOfChar_eq_length _ _ hslash
  have hterm : ∀ d ∈ (a :: q), isLineTerm d = false := by
    intro d hd
    rcases List.mem_cons.mp hd with rfl | hd
    · exact haterm
    · exact hq3 d hd
  have hroot : matchRoot (r :: a :: q) = some (r, String.mk [a], q) := by
    rw [matchRoot_pos r (a :: q) hr hterm, splitAcc_single a q ha hq2]
  simp only [transposeChordAux, hidx, lt_irrefl, if_false, hroot, hm]
  rfl

theorem entries_ok :
    ∀ (conv : NoteConvention) (pref : AccidentalPreference) (k : Nat),
      k < 12 → entryOk conv pref k = true := by decide

theorem tca_entry (conv : NoteConvention) (pref : AccidentalPreference)
    (k : Nat) (hk : k < 12) (q : List Char) (hq : qOk q = true)
    (n : Int) (fuel : Nat) :
    transposeChordAux (noteMapOf conv) (SEMITONE_TO_NOTE conv pref) n (fuel + 1)
        ((SEMITONE_TO_NOTE conv pref k).data ++ q) =
      (SEMITONE_TO_NOTE conv pref (idx ((k : Int) + n))).data ++ q := by
  have he := entries_ok conv pref k hk
  unfold entryOk at he
  rcases hdat : (SEMITONE_TO_NOTE conv pref k).data with _ | ⟨r, rest⟩
  · rw [hdat] at he
    simp at he
  · rcases rest with _ | ⟨a, rest2⟩
    · rw [hdat] at he
      simp at he
      obtain ⟨h1, h2⟩ := he
      show transposeChordAux _ _ _ (fuel + 1) (r :: q) = _
      rw [tcaRoot _ _ n fuel r q (k : Int) h1 h2 hq]
    · rcases rest2 with _ | ⟨x, rest3⟩
      · rw [hdat] at he
        simp at he
        obtain ⟨⟨h1, ha⟩, hm⟩ := he
        show transposeChordAux _ _ _ (fuel + 1) (r :: a :: q) = _
        rw [tcaRootAcc _ _ n fuel r a q _ h1 ha hm hq]
        rw [show (k : Int) - accidentalOffset (String.mk [a]) +
            accidentalOffset (String.mk [a]) + n = (k : Int) + n from by omega]
      · rw [hdat] at he
        simp at he

/-- C2 (amended): for a chord written canonically — its root spelled exactly
as the selected table's entry for its pitch class, followed by a quality
suffix that contains no slash or line terminator and does not begin with an
accidental character — transposing by n then by −n restores the original
text exactly, as does a single transposition by +12 or by −12. -/
theorem transposeChord_canonical_roundtrip (conv : NoteConvention)
    (pref : AccidentalPreference) (k : Nat) (q : String) (n : Int)
    (hk : k < 12) (hq : qOk q.data = true) :
    transposeChord
        (transposeChord (SEMITONE_TO_NOTE conv pref k ++ q) n (noteMapOf conv)
          (SEMITONE_TO_NOTE conv pref))
        (-n) (noteMapOf conv) (SEMITONE_TO_NOTE conv pref) =
      SEMITONE_TO_NOTE conv pref k ++ q ∧
    transposeChord (SEMITONE_TO_NOTE conv pref k ++ q) 12 (noteMapOf conv)
        (SEMITONE_TO_NOTE conv pref) =
      SEMITONE_TO_NOTE conv pref k ++ q ∧
    transposeChord (SEMITONE_TO_NOTE conv pref k ++ q) (-12) (noteMapOf conv)
        (SEMITONE_TO_NOTE conv pref) =
      SEMITONE_TO_NOTE conv pref k ++ q := by
  have step : ∀ (j : Nat), j < 12 → ∀ (m : Int),
      transposeChord (SEMITONE_TO_NOTE conv pref j ++ q) m (noteMapOf conv)
          (SEMITONE_TO_NOTE conv pref) =
        SEMITONE_TO_NOTE conv pref (idx ((j : Int) + m)) ++ q := by
    intro j hj m
    unfold transposeChord
    rw [String.data_append]
    rw [tca_entry conv pref j hj q.data hq m
      ((SEMITONE_TO_NOTE conv pref j).data ++ q.data).length]
    rfl
  have hlt : ∀ z : Int, idx z < 12 := by
    intro z
    unfold idx
    omega
  refine ⟨?_, ?_, ?_⟩
  · rw [step k hk n, step (idx ((k : Int) + n)) (hlt _) (-n)]
    rw [show idx ((idx ((k : Int) + n) : Int) + -n) = k from by unfold idx; omega]
  · rw [step k hk 12]
    rw [show idx ((k : Int) + 12) = k from by unfold idx; omega]
  · rw [step k hk (-12)]
    rw [show idx ((k : Int) + -12) = k from by unfold idx; omega]

theorem transposeChord_canonical_roundtrip_witness :
    (6 < 12 ∧ qOk ("m7" : String).data = true) ∧
    (transposeChord
        (transposeChord (SEMITONE_TO_NOTE .standard .sharp 6 ++ "m7") 1
          (noteMapOf .standard) (SEMITONE_TO_NOTE .standard .sharp))
        (-1) (noteMapOf .standard) (SEMITONE_TO_NOTE .standard .sharp) =
      SEMITONE_TO_NOTE .standard .sharp 6 ++ "m7" ∧
    transposeChord (SEMITONE_TO_NOTE .standard .sharp 6 ++ "m7") 12
        (noteMapOf .standard) (SEMITONE_TO_NOTE .standard .sharp) =
      SEMITONE_TO_NOTE .standard .sharp 6 ++ "m7" ∧
    transposeChord (SEMITONE_TO_NOTE .standard .sharp 6 ++ "m7") (-12)
        (noteMapOf .standard) (SEMITONE_TO_NOTE .standard .sharp) =
      SEMITONE_TO_NOTE .standard .sharp 6 ++ "m7") :=
  ⟨⟨by decide, by decide⟩,
    transposeChord_canonical_roundtrip .standard .sharp 6 "m7" 1 (by decide) (by decide)⟩

theorem replAll_append (p : Char) (r xs ys : List Char) :
    replAll p r (xs ++ ys) = replAll p r xs ++ replAll p r ys := by
  simp [replAll]

theorem escapeHtmlL_append (xs ys : List Char) :
    escapeHtmlL (xs ++ ys) = escapeHtmlL xs ++ escapeHtmlL ys := by
  simp [escapeHtmlL, replAll_append]

theorem escapeHtmlL_single (c : Char) : escapeHtmlL [c] = escChar c := by
  by_cases h1 : c = '&'
  · subst h1; decide
  by_cases h2 : c = '<'
  · subst h2; decide
  by_cases h3 : c = '>'
  · subst h3; decide
  by_cases h4 : c = '"'
  · subst h4; decide
  simp [escapeHtmlL, replAll, escChar, h1, h2, h3, h4]

theorem escapeHtmlL_cons (c : Char) (cs : List Char) :
    escapeHtmlL (c :: cs) = escChar c ++ escapeHtmlL cs := by
  rw [show (c :: cs) = [c] ++ cs from rfl, escapeHtmlL_append, escapeHtmlL_single]

theorem escChar_count_safe (c0 : Char) (h0 : c0 = '<' ∨ c0 = '>' ∨ c0 = '"')
    (d : Char) : (escChar d).count c0 = 0 := by
  by_cases h1 : d = '&'
  · subst h1; rcases h0 with rfl | rfl | rfl <;> decide
  by_cases h2 : d = '<'
  · subst h2; rcases h0 with rfl | rfl | rfl <;> decide
  by_cases h3 : d = '>'
  · subst h3; rcases h0 with rfl | rfl | rfl <;> decide
  by_cases h4 : d = '"'
  · subst h4; rcases h0 with rfl | rfl | rfl <;> decide
  have hd : d ≠ c0 := by rcases h0 with rfl | rfl | rfl <;> assumption
  simp [escChar, h1, h2, h3, h4, List.count_cons, hd]

theorem escChar_count_amp (d : Char) :
    (escChar d).count '&' = if isDangerous d then 1 else 0 := by
  by_cases h1 : d = '&'
  · subst h1; decide
  by_cases h2 : d = '<'
  · subst h2; decide
  by_cases h3 : d = '>'
  · subst h3; decide
  by_cases h4 : d = '"'
  · subst h4; decide
  have hdang : isDangerous d = false := by simp [isDangerous, h1, h2, h3, h4]
  simp [escChar, h1, h2, h3, h4, hdang, List.count_cons]

theorem escapeHtmlL_count_safe (c0 : Char) (h0 : c0 = '<' ∨ c0 = '>' ∨ c0 = '"') :
    ∀ cs : List Char, (escapeHtmlL cs).count c0 = 0
  | [] => rfl
  | c :: cs => by
    rw [escapeHtmlL_cons, List.count_append, escChar_count_safe c0 h0 c,
      escapeHtmlL_count_safe c0 h0 cs]

theorem escapeHtmlL_count_amp :
    ∀ cs : List Char, (escapeHtmlL cs).count '&' = cs.countP isDangerous
  | [] => rfl
  | c :: cs => by
    rw [escapeHtmlL_cons, List.count_append, escChar_count_amp c,
      escapeHtmlL_count_amp cs, List.countP_cons]
    by_cases h : isDangerous c <;> simp [h] <;> omega

theorem escChar_ne_nil (c : Char) : escChar c ≠ [] := by
  by_cases h1 : c = '&'
  · subst h1; decide
  by_cases h2 : c = '<'
  · subst h2; decide
  by_cases h3 : c = '>'
  · subst h3; decide
  by_cases h4 : c = '"'
  · subst h4; decide
  simp [escChar, h1, h2, h3, h4]

theorem escapeHtmlL_eq_nil (cs : List Char) (h : escapeHtmlL cs = []) : cs = [] := by
  cases cs with
  | nil => rfl
  | cons c cs =>
    rw [escapeHtmlL_cons] at h
    exact absurd (List.append_eq_nil.mp h).1 (escChar_ne_nil c)

theorem count_flat (c0 : Char) :
    ∀ ls : List (List Char), ls.flatten.count c0 = (ls.map fun l => l.count c0).sum
  | [] => rfl
  | x :: ls => by
    rw [List.flatten_cons, List.count_append, count_flat c0 ls, List.map_cons, List.sum_cons]

theorem joinNL_count (c0 : Char) (h : (('\n' : Char) == c0) = false) :
    ∀ ls : List (List Char), (joinNL ls).count c0 = (ls.map fun l => l.count c0).sum
  | [] => rfl
  | [x] => by simp [joinNL]
  | x :: y :: r => by
    rw [show joinNL (x :: y :: r) = x ++ '\n' :: joinNL (y :: r) from rfl,
      List.count_append, List.count_cons, joinNL_count c0 h (y :: r)]
    simp [h]

theorem renderChordL_count (c0 : Char) (w : Nat)
    (hesc : ∀ x : List Char, (escapeHtmlL x).count c0 = w * x.countP isDangerous)
    (hnb : (('\u00a0' : Char) == c0) = false) (pair : Chord) :
    (renderChordL pair).count c0 =
      pairTplCount c0 +
        w * (pair.chord.data.countP isDangerous + pair.lyric.data.countP isDangerous) := by
  have hspan : ("<span class=\"chord\"></span>" : String).data =
      ("<span class=\"chord\">" : String).data ++ ("</span>" : String).data := rfl
  have hlyr : (if (escapeHtmlL pair.lyric.data).isEmpty then ['\u00a0']
      else escapeHtmlL pair.lyric.data).count c0 = w * pair.lyric.data.countP isDangerous := by
    by_cases he : (escapeHtmlL pair.lyric.data).isEmpty
    · have hn : pair.lyric.data = [] := escapeHtmlL_eq_nil _ (by simpa using he)
      rw [if_pos he, hn]
      simp [List.count_cons, hnb]
    · rw [if_neg he, hesc]
  rcases eq_or_ne pair.chord "" with hch | hch
  · have hred : renderChordL pair =
        "<span class=\"chord-lyric\">".data ++ "<span class=\"chord\"></span>".data ++
          ("<span class=\"lyric\">".data ++
            (if (escapeHtmlL pair.lyric.data).isEmpty then ['\u00a0']
             else escapeHtmlL pair.lyric.data) ++ "</span>".data) ++ "</span>".data := by
      simp [renderChordL, hch]
    rw [hred, hspan, hch]
    unfold pairTplCount
    rw [show (("" : String).data.countP isDangerous) = 0 from rfl]
    simp only [List.count_append, hlyr]
    ring
  · have hred : renderChordL pair =
        "<span class=\"chord-lyric\">".data ++
          ("<span class=\"chord\">".data ++ escapeHtmlL pair.chord.data ++
            "</span>".data) ++
          ("<span class=\"lyric\">".data ++
            (if (escapeHtmlL pair.lyric.data).isEmpty then ['\u00a0']
             else escapeHtmlL pair.lyric.data) ++ "</span>".data) ++ "</span>".data := by
      simp [renderChordL, hch]
    rw [hred]
    unfold pairTplCount
    simp only [List.count_append, hlyr, hesc]
    ring

theorem renderChords_sum (c0 : Char) (w : Nat)
    (hesc : ∀ x : List Char, (escapeHtmlL x).count c0 = w * x.countP isDangerous)
    (hnb : (('\u00a0' : Char) == c0) = false) :
    ∀ cs : List Chord,
      ((cs.map renderChordL).map fun l => l.count c0).sum =
        cs.length * pairTplCount c0 +
          w * (cs.map fun p => p.chord.data.countP isDangerous +
            p.lyric.data.countP isDangerous).sum
  | [] => by simp
  | p :: ps => by
    simp only [List.map_cons, List.sum_cons, List.length_cons,
      renderChordL_count c0 w hesc hnb p, renderChords_sum c0 w hesc hnb ps]
    ring

theorem renderLineL_count (c0 : Char) (w : Nat)
    (hesc : ∀ x : List Char, (escapeHtmlL x).count c0 = w * x.countP isDangerous)
    (hnb : (('\u00a0' : Char) == c0) = false) (cs : List Chord) :
    (renderLineL cs).count c0 = lineTplCount c0 cs + w * dangerNode (.line cs) := by
  cases hc : cs.any fun c => c.chord ≠ "" with
  | true =>
    have hred : renderLineL cs =
        "<div class=\"line\">".data ++ (cs.map renderChordL).flatten ++ "</div>".data := by
      unfold renderLineL
      rw [hc]
      rfl
    have htpl : lineTplCount c0 cs =
        ("<div class=\"line\">".data ++ ("</div>" : String).data).count c0 +
          cs.length * pairTplCount c0 := by
      unfold lineTplCount
      rw [hc]
      rfl
    have hdang : dangerNode (.line cs) =
        (cs.map fun p => p.chord.data.countP isDangerous +
          p.lyric.data.countP isDangerous).sum := by
      unfold dangerNode
      rw [hc]
      rfl
    rw [hred, htpl, hdang]
    simp only [List.count_append]
    rw [count_flat, renderChords_sum c0 w hesc hnb cs]
    ring
  | false =>
    have hred : renderLineL cs =
        "<div class=\"line\">".data ++
          escapeHtmlL ((cs.map fun c => c.lyric.data).flatten) ++ "</div>".data := by
      unfold renderLineL
      rw [hc]
      rfl
    have htpl : lineTplCount c0 cs =
        ("<div class=\"line\">".data ++ ("</div>" : String).data).count c0 := by
      unfold lineTplCount
      rw [hc]
      rfl
    have hdang : dangerNode (.line cs) =
        ((cs.map fun p => p.lyric.data).flatten).countP isDangerous := by
      unfold dangerNode
      rw [hc]
      rfl
    rw [hred, htpl, hdang]
    simp only [List.count_append, hesc]
    ring

theorem renderDirectiveL_count (c0 : Char) (w : Nat)
    (hesc : ∀ x : List Char, (escapeHtmlL x).count c0 = w * x.countP isDangerous)
    (name value : String) :
    (renderDirectiveL name value).count c0 =
      dirTplCount c0 name + w * dangerNode (.directive name value) := by
  have known : ∀ (pre suf : String),
      renderDirectiveL name value = pre.data ++ escapeHtmlL value.data ++ suf.data →
      dirTplCount c0 name = (pre.data ++ suf.data).count c0 →
      dangerNode (.directive name value) = value.data.countP isDangerous →
      (renderDirectiveL name value).count c0 =
        dirTplCount c0 name + w * dangerNode (.directive name value) := by
    intro pre suf h1 h2 h3
    rw [h1, h2, h3]
    simp only [List.count_append, hesc]
    ring
  cases e1 : name == "title" with
  | true =>
    exact known "<h1 class=\"song-title\">" "</h1>"
      (by unfold renderDirectiveL; rw [e1]; rfl) (by unfold dirTplCount; rw [e1]; rfl)
      (by unfold dangerNode; rw [e1]; simp)
  | false =>
  cases e2 : name == "subtitle" with
  | true =>
    exact known "<h2 class=\"song-subtitle\">" "</h2>"
      (by unfold renderDirectiveL; rw [e1, e2]; rfl) (by unfold dirTplCount; rw [e1, e2]; rfl)
      (by unfold dangerNode; rw [e1, e2]; simp)
  | false =>
  cases e3 : name == "comment" with
  | true =>
    exact known "<p class=\"comment\">" "</p>"
      (by unfold renderDirectiveL; rw [e1, e2, e3]; rfl) (by unfold dirTplCount; rw [e1, e2, e3]; rfl)
      (by unfold dangerNode; rw [e1, e2, e3]; simp)
  | false =>
  cases e4 : name == "comment_italic" with
  | true =>
    exact known "<p class=\"comment comment-italic\"><i>" "</i></p>"
      (by unfold renderDirectiveL; rw [e1, e2, e3, e4]; rfl)
      (by unfold dirTplCount; rw [e1, e2, e3, e4]; rfl)
      (by unfold dangerNode; rw [e1, e2, e3, e4]; simp)
  | false =>
  cases e5 : name == "comment_box" with
  | true =>
    exact known "<p class=\"comment comment-box\">" "</p>"
      (by unfold renderDirectiveL; rw [e1, e2, e3, e4, e5]; rfl)
      (by unfold dirTplCount; rw [e1, e2, e3, e4, e5]; rfl)
      (by unfold dangerNode; rw [e1, e2, e3, e4, e5]; simp)
  | false =>
    have hred : renderDirectiveL name value =
        "<div class=\"meta meta-".data ++ escapeHtmlL name.data ++ "\">".data ++
          escapeHtmlL value.data ++ "</div>".data := by
      unfold renderDirectiveL
      rw [e1, e2, e3, e4, e5]
      rfl
    have htpl : dirTplCount c0 name =
        ("<div class=\"meta meta-".data ++ ("\">" : String).data ++
          ("</div>" : String).data).count c0 := by
      unfold dirTplCount
      rw [e1, e2, e3, e4, e5]
      rfl
    have hdang : dangerNode (.directive name value) =
        name.data.countP isDangerous + value.data.countP isDangerous := by
      unfold dangerNode
      rw [e1, e2, e3, e4, e5]
      rfl
    rw [hred, htpl, hdang]
    simp only [List.count_append, hesc]
    ring

theorem renderSectL_count (c0 : Char) (w : Nat)
    (hesc : ∀ x : List Char, (escapeHtmlL x).count c0 = w * x.countP isDangerous)
    (nm : String) (lb : Option String) (ls : AstNodes)
    (hrec : (joinNL (renderListL ls)).count c0 = tplList c0 ls + w * dangerList ls) :
    (renderNodeL (.sect nm lb ls)).count c0 =
      tplNode c0 (.sect nm lb ls) + w * dangerNode (.sect nm lb ls) := by
  rcases lb with _ | v
  · have hred : renderNodeL (.sect nm none ls) =
        "<div class=\"section section-".data ++ escapeHtmlL nm.data ++ "\">\n".data ++
          List.nil ++ joinNL (renderListL ls) ++ "\n</div>".data := by
      simp [renderNodeL]
    have htpl : tplNode c0 (.sect nm none ls) =
        ("<div class=\"section section-".data ++ ("\">\n" : String).data ++
          ("\n</div>" : String).data).count c0 + 0 + tplList c0 ls := by
      simp [tplNode]
    have hdang : dangerNode (.sect nm none ls) =
        nm.data.countP isDangerous + 0 + dangerList ls := by
      simp [dangerNode]
    rw [hred, htpl, hdang]
    simp only [List.count_append, List.append_nil, hesc, hrec]
    ring
  · by_cases hv : v = ""
    · subst hv
      have hred : renderNodeL (.sect nm (some "") ls) =
          "<div class=\"section section-".data ++ escapeHtmlL nm.data ++ "\">\n".data ++
            List.nil ++ joinNL (renderListL ls) ++ "\n</div>".data := by
        simp [renderNodeL]
      have htpl : tplNode c0 (.sect nm (some "") ls) =
          ("<div class=\"section section-".data ++ ("\">\n" : String).data ++
            ("\n</div>" : String).data).count c0 + 0 + tplList c0 ls := by
        simp [tplNode]
      have hdang : dangerNode (.sect nm (some "") ls) =
          nm.data.countP isDangerous + 0 + dangerList ls := by
        simp [dangerNode]
      rw [hred, htpl, hdang]
      simp only [List.count_append, List.append_nil, hesc, hrec]
      ring
    · have hred : renderNodeL (.sect nm (some v) ls) =
          "<div class=\"section section-".data ++ escapeHtmlL nm.data ++ "\">\n".data ++
            ("<div class=\"section-label\">".data ++ escapeHtmlL v.data ++
              "</div>\n".data) ++ joinNL (renderListL ls) ++ "\n</div>".data := by
        simp [renderNodeL, hv]
      have htpl : tplNode c0 (.sect nm (some v) ls) =
          ("<div class=\"section section-".data ++ ("\">\n" : String).data ++
            ("\n</div>" : String).data).count c0 +
            ("<div class=\"section-label\">".data ++ ("</div>\n" : String).data).count c0 +
            tplList c0 ls := by
        simp [tplNode, hv]
      have hdang : dangerNode (.sect nm (some v) ls) =
          nm.data.countP isDangerous + v.data.countP isDangerous + dangerList ls := by
        simp [dangerNode, hv]
      rw [hred, htpl, hdang]
      simp only [List.count_append, hesc, hrec]
      ring

theorem renderEmptyL_count (c0 : Char) (w : Nat) :
    (renderNodeL .empty).count c0 = tplNode c0 .empty + w * dangerNode .empty := by
  rw [show dangerNode .empty = 0 from rfl]
  rw [show tplNode c0 .empty = ("<div class=\"empty-line\"></div>" : String).data.count c0
    from rfl]
  rw [show renderNodeL .empty = ("<div class=\"empty-line\"></div>" : String).data from rfl]
  ring

theorem renderList_nil_count (c0 : Char) (w : Nat) :
    (joinNL (renderListL .nil)).count c0 = tplList c0 .nil + w * dangerList .nil := by
  rw [show joinNL (renderListL .nil) = [] from rfl,
    show tplList c0 .nil = 0 from rfl, show dangerList .nil = 0 from rfl]
  rfl

theorem renderList_cons_count (c0 : Char) (w : Nat)
    (hnl : (('\n' : Char) == c0) = false) (n : AstNode) (ns : AstNodes)
    (hnode : (renderNodeL n).count c0 = tplNode c0 n + w * dangerNode n)
    (hrest : (joinNL (renderListL ns)).count c0 = tplList c0 ns + w * dangerList ns) :
    (joinNL (renderListL (.cons n ns))).count c0 =
      tplList c0 (.cons n ns) + w * dangerList (.cons n ns) := by
  have h1 := joinNL_count c0 hnl (renderNodeL n :: renderListL ns)
  have h2 := joinNL_count c0 hnl (renderListL ns)
  rw [show renderListL (.cons n ns) = renderNodeL n :: renderListL ns from rfl, h1]
  rw [h2] at hrest
  simp only [List.map_cons, List.sum_cons, hnode, hrest]
  rw [show tplList c0 (.cons n ns) = tplNode c0 n + tplList c0 ns from rfl,
    show dangerList (.cons n ns) = dangerNode n + dangerList ns from rfl]
  ring

mutual
theorem renderNodeL_count (c0 : Char) (w : Nat)
    (hesc : ∀ x : List Char, (escapeHtmlL x).count c0 = w * x.countP isDangerous)
    (hnl : (('\n' : Char) == c0) = false)
    (hnb : (('\u00a0' : Char) == c0) = false) :
    ∀ n : AstNode, (renderNodeL n).count c0 = tplNode c0 n + w * dangerNode n
  | .line cs => renderLineL_count c0 w hesc hnb cs
  | .directive nm v => renderDirectiveL_count c0 w hesc nm v
  | .sect nm lb ls =>
    renderSectL_count c0 w hesc nm lb ls (renderListL_count c0 w hesc hnl hnb ls)
  | .empty => renderEmptyL_count c0 w
theorem renderListL_count (c0 : Char) (w : Nat)
    (hesc : ∀ x : List Char, (escapeHtmlL x).count c0 = w * x.countP isDangerous)
    (hnl : (('\n' : Char) == c0) = false)
    (hnb : (('\u00a0' : Char) == c0) = false) :
    ∀ ns : AstNodes, (joinNL (renderListL ns)).count c0 = tplList c0 ns + w * dangerList ns
  | .nil => renderList_nil_count c0 w
  | .cons n ns =>
    renderList_cons_count c0 w hnl n ns (renderNodeL_count c0 w hesc hnl hnb n)
      (renderListL_count c0 w hesc hnl hnb ns)
end

theorem lineTpl_amp (cs : List Chord) : lineTplCount '&' cs = 0 := by
  unfold lineTplCount
  cases hc : cs.any fun p => p.chord ≠ "" with
  | false => rfl
  | true =>
    rw [show (("<div class=\"line\">" : String).data ++
      ("</div>" : String).data).count '&' = 0 from rfl]
    rw [show pairTplCount '&' = 0 from rfl]
    simp

theorem dirTpl_amp (name : String) : dirTplCount '&' name = 0 := by
  unfold dirTplCount
  split_ifs <;> rfl

set_option maxHeartbeats 1600000 in
theorem sectTpl_amp (nm : String) (lb : Option String) (ls : AstNodes)
    (h : tplList '&' ls = 0) : tplNode '&' (.sect nm lb ls) = 0 := by
  rcases lb with _ | v
  · have hseq : tplNode '&' (.sect nm none ls) =
        ("<div class=\"section section-".data ++ ("\">\n" : String).data ++
          ("\n</div>" : String).data).count '&' + 0 + tplList '&' ls := by
      simp [tplNode]
    rw [hseq, h, show (("<div class=\"section section-" : String).data ++
      ("\">\n" : String).data ++ ("\n</div>" : String).data).count '&' = 0 from rfl]
  · by_cases hv : v = ""
    · subst hv
      have hseq : tplNode '&' (.sect nm (some "") ls) =
          ("<div class=\"section section-".data ++ ("\">\n" : String).data ++
            ("\n</div>" : String).data).count '&' + 0 + tplList '&' ls := by
        simp [tplNode]
      rw [hseq, h, show (("<div class=\"section section-" : String).data ++
        ("\">\n" : String).data ++ ("\n</div>" : String).data).count '&' = 0 from rfl]
    · have hseq : tplNode '&' (.sect nm (some v) ls) =
          ("<div class=\"section section-".data ++ ("\">\n" : String).data ++
            ("\n</div>" : String).data).count '&' +
            ("<div class=\"section-label\">".data ++
              ("</div>\n" : String).data).count '&' + tplList '&' ls := by
        simp [tplNode, hv]
      rw [hseq, h, show (("<div class=\"section section-" : String).data ++
        ("\">\n" : String).data ++ ("\n</div>" : String).data).count '&' = 0 from rfl,
        show (("<div class=\"section-label\">" : String).data ++
          ("</div>\n" : String).data).count '&' = 0 from rfl]

mutual
theorem tplNode_amp : ∀ n : AstNode, tplNode '&' n = 0
  | .line cs => lineTpl_amp cs
  | .directive nm _ => dirTpl_amp nm
  | .sect nm lb ls => sectTpl_amp nm lb ls (tplList_amp ls)
  | .empty => rfl
theorem tplList_amp : ∀ ns : AstNodes, tplList '&' ns = 0
  | .nil => rfl
  | .cons n ns => by
    show tplNode '&' n + tplList '&' ns = 0
    rw [tplNode_amp n, tplList_amp ns]
end

/-- C8: dangerous characters from song content never reach the rendered HTML
raw.  Escaped text contains no `<`, `>` or `"` at all and exactly one `&`
per dangerous source character (the head of its entity); and in the full
rendered output the number of raw `<`, `>` and `"` characters is a function
of the song's shape alone (the fixed markup), while every `&` corresponds
one-to-one to an escaped dangerous content character. -/
theorem html_escaping_safe :
    (∀ s : String,
        ('<' ∉ (escapeHtml s).data ∧ '>' ∉ (escapeHtml s).data ∧
          '"' ∉ (escapeHtml s).data) ∧
        (escapeHtml s).data.count '&' = s.data.countP isDangerous) ∧
    (∀ (song : Song) (b : Bool),
        (render song ⟨b⟩).data.count '<' = tplSong '<' song b ∧
        (render song ⟨b⟩).data.count '>' = tplSong '>' song b ∧
        (render song ⟨b⟩).data.count '"' = tplSong '"' song b ∧
        (render song ⟨b⟩).data.count '&' = dangerSong song) := by
  have hdata : ∀ s : String, (escapeHtml s).data = escapeHtmlL s.data := fun s => rfl
  have main : ∀ (c0 : Char) (w : Nat),
      (∀ x : List Char, (escapeHtmlL x).count c0 = w * x.countP isDangerous) →
      (('\n' : Char) == c0) = false → (('\u00a0' : Char) == c0) = false →
      ∀ (song : Song) (b : Bool),
        (render song ⟨b⟩).data.count c0 = tplSong c0 song b + w * dangerSong song := by
    intro c0 w hesc hnl hnb song b
    cases hn : song.nodes.isNil with
    | true =>
      have hr : render song ⟨b⟩ = "" := by
        unfold render
        rw [hn]
        rfl
      have ht : tplSong c0 song b = 0 := by
        unfold tplSong
        rw [hn]
        rfl
      have hd : dangerSong song = 0 := by
        unfold dangerSong
        rw [hn]
        rfl
      rw [hr, ht, hd]
      simp
    | false =>
      cases b with
      | false =>
        have hr : render song ⟨false⟩ = (joinNL (renderListL song.nodes)).asString := by
          unfold render
          rw [hn]
          rfl
        have ht : tplSong c0 song false = tplList c0 song.nodes := by
          unfold tplSong
          rw [hn]
          simp
        have hd : dangerSong song = dangerList song.nodes := by
          unfold dangerSong
          rw [hn]
          rfl
        rw [hr, ht, hd,
          show ((joinNL (renderListL song.nodes)).asString).data =
            joinNL (renderListL song.nodes) from rfl,
          renderListL_count c0 w hesc hnl hnb song.nodes]
      | true =>
        have hr : render song ⟨true⟩ =
            (shellPre.data ++ joinNL (renderListL song.nodes) ++
              shellPost.data).asString := by
          unfold render
          rw [hn]
          rfl
        have ht : tplSong c0 song true =
            tplList c0 song.nodes +
              (shellPre.data.count c0 + shellPost.data.count c0) := by
          unfold tplSong
          rw [hn]
          simp
        have hd : dangerSong song = dangerList song.nodes := by
          unfold dangerSong
          rw [hn]
          rfl
        rw [hr,
          show ((shellPre.data ++ joinNL (renderListL song.nodes) ++
            shellPost.data).asString).data =
            shellPre.data ++ joinNL (renderListL song.nodes) ++ shellPost.data from rfl]
        simp only [List.count_append]
        rw [renderListL_count c0 w hesc hnl hnb song.nodes, ht, hd]
        ring
  constructor
  · intro s
    refine ⟨⟨?_, ?_, ?_⟩, ?_⟩
    · rw [hdata]
      exact List.count_eq_zero.mp (escapeHtmlL_count_safe '<' (Or.inl rfl) s.data)
    · rw [hdata]
      exact List.count_eq_zero.mp (escapeHtmlL_count_safe '>' (Or.inr (Or.inl rfl)) s.data)
    · rw [hdata]
      exact List.count_eq_zero.mp (escapeHtmlL_count_safe '"' (Or.inr (Or.inr rfl)) s.data)
    · rw [hdata]
      exact escapeHtmlL_count_amp s.data
  · intro song b
    refine ⟨?_, ?_, ?_, ?_⟩
    · rw [main '<' 0 (fun x => by rw [escapeHtmlL_count_safe '<' (Or.inl rfl) x]; ring)
        (by decide) (by decide) song b]
      ring
    · rw [main '>' 0
        (fun x => by rw [escapeHtmlL_count_safe '>' (Or.inr (Or.inl rfl)) x]; ring)
        (by decide) (by decide) song b]
      ring
    · rw [main '"' 0
        (fun x => by rw [escapeHtmlL_count_safe '"' (Or.inr (Or.inr rfl)) x]; ring)
        (by decide) (by decide) song b]
      ring
    · rw [main '&' 1 (fun x => by rw [escapeHtmlL_count_amp x]; ring)
        (by decide) (by decide) song b]
      rw [show tplSong '&' song b = 0 from by
        cases hn : song.nodes.isNil with
        | true =>
          unfold tplSong
          rw [hn]
          rfl
        | false =>
          unfold tplSong
          rw [hn]
          simp only [Bool.false_eq_true, if_false]
          rw [tplList_amp song.nodes]
          cases b
          · rfl
          · rw [show shellPre.data.count '&' = 0 from rfl,
              show shellPost.data.count '&' = 0 from rfl]
            rfl]
      ring

end Chordpro
